import Mathlib

/-!
Verification model of `populating-cache` (src/src/PopulatingCache.js, the
current class version).  JavaScript values are embedded as the inductive
type `Value`; the cache's `cacheData` and `cacheMetadata` trees, the parsed
path representation, and the public operations `put`, `get`, `getSync`,
`isInCache`, `populate`, `delete`, `subscribe` and `path2rest` are
translated from the source.  Asynchronous functions are modelled as pure
functions returning `Except` (a rejected promise or a synchronous throw is
an `error`); `Date.now()` is an explicit `now : Int` parameter; the backend
`fetchFunc` is a pure function `Value → Value` and every call to it is
recorded in an output list, so that "the backend is invoked n times" is a
statement about that list.  Recursion through reference population is
bounded by explicit fuel (`none` = fuel exhausted); all claims quantify
over or instantiate the fuel.
-/

namespace PopCache

/-- JavaScript runtime values, as far as the cache manipulates them.
Arrays carry their element list and (as in JS) an association list of
non-index string properties.  Numbers are modelled as integers: every
number the cache itself produces (ids, indices, TTL timestamps) is
integral.  Functions, symbols and NaN are outside the model. -/
inductive Value where
  | undef : Value
  | null : Value
  | bool : Bool → Value
  | num : Int → Value
  | str : String → Value
  | obj : List (String × Value) → Value
  | arr : List Value → List (String × Value) → Value
deriving Repr

mutual

/-- Structural (deep) equality test on values. -/
def Value.beq : Value → Value → Bool
  | .undef, .undef => true
  | .null, .null => true
  | .bool a, .bool b => a == b
  | .num a, .num b => a == b
  | .str a, .str b => a == b
  | .obj fs, .obj gs => beqFields fs gs
  | .arr es ps, .arr fs qs => beqElems es fs && beqFields ps qs
  | _, _ => false

/-- Deep equality on element lists. -/
def beqElems : List Value → List Value → Bool
  | [], [] => true
  | a :: as, b :: bs => Value.beq a b && beqElems as bs
  | _, _ => false

/-- Deep equality on field lists. -/
def beqFields : List (String × Value) → List (String × Value) → Bool
  | [], [] => true
  | (k, a) :: as, (l, b) :: bs => k == l && Value.beq a b && beqFields as bs
  | _, _ => false

end

mutual

/-- Soundness of `Value.beq`. -/
def Value.eq_of_beq : ∀ {a b : Value}, Value.beq a b = true → a = b
  | .undef, .undef, _ => rfl
  | .null, .null, _ => rfl
  | .bool _, .bool _, h => by
    simp only [Value.beq, beq_iff_eq] at h; exact h ▸ rfl
  | .num _, .num _, h => by
    simp only [Value.beq, beq_iff_eq] at h; exact h ▸ rfl
  | .str _, .str _, h => by
    simp only [Value.beq, beq_iff_eq] at h; exact h ▸ rfl
  | .obj fs, .obj gs, h => by
    simp only [Value.beq] at h
    exact congrArg Value.obj (eq_of_beqFields h)
  | .arr es ps, .arr fs qs, h => by
    simp only [Value.beq, Bool.and_eq_true] at h
    exact congrArg₂ Value.arr (eq_of_beqElems h.1) (eq_of_beqFields h.2)

/-- Soundness of `beqElems`. -/
def eq_of_beqElems : ∀ {as bs : List Value}, beqElems as bs = true → as = bs
  | [], [], _ => rfl
  | a :: as, b :: bs, h => by
    simp only [beqElems, Bool.and_eq_true] at h
    exact congrArg₂ List.cons (Value.eq_of_beq h.1) (eq_of_beqElems h.2)

/-- Soundness of `beqFields`. -/
def eq_of_beqFields :
    ∀ {as bs : List (String × Value)}, beqFields as bs = true → as = bs
  | [], [], _ => rfl
  | (k, a) :: as, (l, b) :: bs, h => by
    simp only [beqFields, Bool.and_eq_true, beq_iff_eq] at h
    obtain ⟨⟨h1, h2⟩, h3⟩ := h
    exact congrArg₂ List.cons (by rw [h1, Value.eq_of_beq h2])
      (eq_of_beqFields h3)

end

mutual

/-- Reflexivity of `Value.beq`. -/
def Value.beq_refl : ∀ a : Value, Value.beq a a = true
  | .undef => rfl
  | .null => rfl
  | .bool b => by simp [Value.beq]
  | .num n => by simp [Value.beq]
  | .str s => by simp [Value.beq]
  | .obj fs => by simp only [Value.beq]; exact beqFields_refl fs
  | .arr es ps => by
    simp only [Value.beq, Bool.and_eq_true]
    exact ⟨beqElems_refl es, beqFields_refl ps⟩

/-- Reflexivity of `beqElems`. -/
def beqElems_refl : ∀ as : List Value, beqElems as as = true
  | [] => rfl
  | a :: as => by
    simp only [beqElems, Bool.and_eq_true]
    exact ⟨Value.beq_refl a, beqElems_refl as⟩

/-- Reflexivity of `beqFields`. -/
def beqFields_refl : ∀ as : List (String × Value), beqFields as as = true
  | [] => rfl
  | (k, a) :: as => by
    simp only [beqFields, Bool.and_eq_true]
    exact ⟨⟨by simp, Value.beq_refl a⟩, beqFields_refl as⟩

end

instance : DecidableEq Value := fun a b =>
  decidable_of_iff (Value.beq a b = true)
    ⟨Value.eq_of_beq, fun h => h ▸ Value.beq_refl a⟩

/-- Error/rejection outcomes.  Messages are dropped; the constructor
identifies the `throw`/`reject` site in the source. -/
inductive JsErr where
  | typeError : JsErr
  | parseError : JsErr
  | invalidPathElem : JsErr
  | appendMidPath : JsErr
  | appendNotArray : JsErr
  | idMismatch : JsErr
  | scalarUnderId : JsErr
  | needFetchFunc : JsErr
  | expiredSync : JsErr
  | rejectedUndefined : JsErr
  | subscribeInvalidPath : JsErr
deriving Repr, DecidableEq

/-- JS truthiness. -/
def truthy : Value → Bool
  | .undef => false
  | .null => false
  | .bool b => b
  | .num n => n != 0
  | .str s => s != ""
  | .obj _ => true
  | .arr _ _ => true

/-- JS `typeof`. -/
def typeofVal : Value → String
  | .undef => "undefined"
  | .null => "object"
  | .bool _ => "boolean"
  | .num _ => "number"
  | .str _ => "string"
  | .obj _ => "object"
  | .arr _ _ => "object"

/-- Lookup in an object's field list (first match). -/
def objGet : List (String × Value) → String → Option Value
  | [], _ => none
  | (k, v) :: rest, key => if k == key then some v else objGet rest key

/-- Replace the first binding of `key` in place, or append a new one:
JS property assignment preserves insertion order. -/
def objSet : List (String × Value) → String → Value → List (String × Value)
  | [], key, v => [(key, v)]
  | (k, w) :: rest, key, v =>
    if k == key then (k, v) :: rest else (k, w) :: objSet rest key v

/-- Write array element `i`, padding with holes (`undef`) as JS does for
out-of-range assignment. -/
def arrSet (es : List Value) (i : Nat) (v : Value) : List Value :=
  if i < es.length then es.set i v
  else es ++ List.replicate (i - es.length) .undef ++ [v]

/-- Digit-string to number (used for `parseInt` on the all-digit tokens
the path grammar produces and for numeric property keys). -/
def digitsToNat : List Char → Nat
  | [] => 0
  | c :: rest => (c.toNat - '0'.toNat) * (10 ^ rest.length) + digitsToNat rest

/-- Numeric parse of a string key/index: `some n` iff the string is a
non-empty digit sequence. -/
def strToNat? (s : String) : Option Nat :=
  let cs := s.toList
  if cs ≠ [] && cs.all Char.isDigit then some (digitsToNat cs) else none

/-- Character-level split of `String.prototype.split('.')` (adjacent or
trailing separators yield empty tokens, as in JS). -/
def splitDotChars : List Char → List (List Char)
  | [] => [[]]
  | c :: rest =>
    if c == '.' then [] :: splitDotChars rest
    else
      match splitDotChars rest with
      | [] => [[c]]
      | g :: gs => (c :: g) :: gs

/-- The JS `path.split('.')`. -/
def splitDot (s : String) : List String :=
  (splitDotChars s.toList).map String.mk

/-- JS `ToNumber` for strings, restricted to the integral strings the cache
actually produces (ids, indices, TTLs).  The empty/whitespace string is 0;
fractional, hex and exponent forms are outside the model.  `none` = NaN. -/
def toNumberStr (s : String) : Option Int :=
  let t := (s.toList.dropWhile Char.isWhitespace).reverse.dropWhile
    Char.isWhitespace |>.reverse
  match t with
  | [] => some 0
  | '-' :: rest =>
    if rest ≠ [] && rest.all Char.isDigit then
      some (-(Int.ofNat (digitsToNat rest)))
    else none
  | _ =>
    if t.all Char.isDigit then some (Int.ofNat (digitsToNat t)) else none

/-- JS strict equality `===` on the values compared by the cache.  Two
objects/arrays are equal only by reference; distinct model values are
therefore unequal (`false`), which matches the source's comparisons of a
path id against stored id fields (always primitives in practice). -/
def strictEq : Value → Value → Bool
  | .undef, .undef => true
  | .null, .null => true
  | .bool a, .bool b => a == b
  | .num a, .num b => a == b
  | .str a, .str b => a == b
  | _, _ => false

/-- Booleans coerce to numbers before JS loose comparison. -/
def numifyBool : Value → Value
  | .bool b => .num (if b then 1 else 0)
  | v => v

/-- JS loose equality `==` as used by `findIndex((el) => el[idAttr] == id)`
and the ID-mismatch check.  Objects coerce via ToPrimitive, which never
equals the primitive ids produced by path parsing; modelled as `false`. -/
def looseEq (a b : Value) : Bool :=
  match numifyBool a, numifyBool b with
  | .undef, .undef => true
  | .null, .null => true
  | .undef, .null => true
  | .null, .undef => true
  | .num x, .num y => x == y
  | .str x, .str y => x == y
  | .num x, .str s => (toNumberStr s).any (· == x)
  | .str s, .num y => (toNumberStr s).any (· == y)
  | _, _ => false

/-- JS ToNumber on values, for the `metadata.ttl < Date.now()` comparison.
`none` is NaN (comparison false).  Object coercion is modelled as NaN. -/
def toNumberV : Value → Option Int
  | .num n => some n
  | .bool b => some (if b then 1 else 0)
  | .null => some 0
  | .str s => toNumberStr s
  | _ => none

/-- The JS comparison `v < n` for a number `n` (NaN compares false). -/
def jsLt (v : Value) (n : Int) : Bool :=
  (toNumberV v).any (· < n)

/-- JS property read `v[k]`.  Reading from `null`/`undefined` throws a
TypeError; primitives yield `undefined` (string character indexing is
kept; special properties such as `length` are outside the model). -/
def Value.getP : Value → String → Except JsErr Value
  | .undef, _ => .error .typeError
  | .null, _ => .error .typeError
  | .obj fs, k => .ok ((objGet fs k).getD .undef)
  | .arr es ps, k =>
    .ok (match strToNat? k with
      | some i => es.getD i .undef
      | none => (objGet ps k).getD .undef)
  | .str s, k =>
    .ok (match strToNat? k with
      | some i => (s.toList.get? i).elim .undef (fun c => .str (String.mk [c]))
      | none => .undef)
  | _, _ => .ok (.undef)

/-- JS indexed read `v[i]` for a numeric index. -/
def Value.getIdx : Value → Nat → Except JsErr Value
  | .undef, _ => .error .typeError
  | .null, _ => .error .typeError
  | .arr es _, i => .ok (es.getD i .undef)
  | .obj fs, i => .ok ((objGet fs (toString i)).getD .undef)
  | .str s, i =>
    .ok ((s.toList.get? i).elim .undef (fun c => .str (String.mk [c])))
  | _, _ => .ok (.undef)

/-- JS property write `v[k] = w`.  The source is an ES module, hence strict
mode: assigning to a property of a primitive, `null` or `undefined`
throws a TypeError. -/
def Value.setP : Value → String → Value → Except JsErr Value
  | .obj fs, k, v => .ok (.obj (objSet fs k v))
  | .arr es ps, k, v =>
    .ok (match strToNat? k with
      | some i => .arr (arrSet es i v) ps
      | none => .arr es (objSet ps k v))
  | _, _, _ => .error .typeError

/-- JS indexed write `v[i] = w`. -/
def Value.setIdx : Value → Nat → Value → Except JsErr Value
  | .arr es ps, i, v => .ok (.arr (arrSet es i v) ps)
  | .obj fs, i, v => .ok (.obj (objSet fs (toString i) v))
  | _, _, _ => .error .typeError

/-- JS `v.push(w)`: only arrays have the method. -/
def Value.pushV : Value → Value → Except JsErr Value
  | .arr es ps, v => .ok (.arr (es ++ [v]) ps)
  | _, _ => .error .typeError

/-- Array test, as `Array.isArray`. -/
def Value.isArr : Value → Bool
  | .arr _ _ => true
  | _ => false

/-- `findIndex((el) => cmp (el[idAttr]) idv)` over the elements of an
array, counting from `i`.  Reading `idAttr` off a `null`/`undefined`
element throws, as in JS. -/
def findIdxFrom (cmp : Value → Value → Bool) (idAttr : String) (idv : Value) :
    Nat → List Value → Except JsErr (Option Nat)
  | _, [] => .ok none
  | i, el :: rest => do
    let p ← el.getP idAttr
    if cmp p idv then .ok (some i) else findIdxFrom cmp idAttr idv (i + 1) rest

/-- `cacheArray.findIndex((el) => el[idAttr] === id)` (PUT uses strict
equality). -/
def Value.findIdxStrict (a : Value) (idAttr : String) (idv : Value) :
    Except JsErr (Option Nat) :=
  match a with
  | .arr es _ => findIdxFrom strictEq idAttr idv 0 es
  | _ => .error .typeError

/-- `cacheElem[key].findIndex((el) => el[idAttr] == id)` (GET/getSync use
loose equality). -/
def Value.findIdxLoose (a : Value) (idAttr : String) (idv : Value) :
    Except JsErr (Option Nat) :=
  match a with
  | .arr es _ => findIdxFrom looseEq idAttr idv 0 es
  | _ => .error .typeError

/-- JS object spread `... v` folded into an accumulating field list
(`null`, `undefined` and non-string primitives contribute nothing). -/
def spreadInto (acc : List (String × Value)) : Value → List (String × Value)
  | .obj fs => fs.foldl (fun a kv => objSet a kv.1 kv.2) acc
  | .arr es ps =>
    ps.foldl (fun a kv => objSet a kv.1 kv.2)
      (es.enum.foldl (fun a p => objSet a (toString p.1) p.2) acc)
  | .str s =>
    (s.toList.enum).foldl
      (fun a p => objSet a (toString p.1) (.str (String.mk [p.2]))) acc
  | _ => acc

/-- The merge write `{...old, ...v}`. -/
def mergeSpread (old v : Value) : Value :=
  .obj (spreadInto (spreadInto [] old) v)

/-- A normalized path element as produced by `parsePath`: the JS object
`{ key, id?, index?, appendArray? }`.  `id = none` models an absent (or
explicitly `undefined`) id property, which the source treats identically
(`id === undefined`). -/
structure PathSeg where
  key : String
  id : Option Value := none
  index : Option Nat := none
  appendArray : Bool := false
deriving Repr, DecidableEq

/-- First character of a path-element key per `pathElemRegEx`. -/
def isKeyStart (c : Char) : Bool :=
  c.isAlpha || c == '_' || c == '$'

/-- Subsequent characters of a key (also of an alphanumeric id). -/
def isKeyChar (c : Char) : Bool :=
  c.isAlphanum || c == '-' || c == '_' || c == '$'

/-- First character of an alphanumeric id per `pathElemRegEx`. -/
def isIdStart (c : Char) : Bool :=
  c.isAlphanum || c == '_' || c == '$'

/-- Matching of one string path element against `pathElemRegEx`
(`key`, `key[index]`, `key[]`, `key/numericId`, `key/alphanumericId`),
including the `parseInt` conversions done by `parsePath`.  `none` means
the regex does not match (a parse error). -/
def matchPathElem (s : String) : Option PathSeg :=
  match s.toList with
  | [] => none
  | c :: rest =>
    if !isKeyStart c then none
    else
      let keyChars := (c :: rest).takeWhile isKeyChar
      let key := String.mk keyChars
      match (c :: rest).drop keyChars.length with
      | [] => some { key }
      | '[' :: t =>
        if t == [']'] then some { key, appendArray := true }
        else
          let ds := t.takeWhile Char.isDigit
          if ds ≠ [] && t.drop ds.length == [']'] then
            some { key, index := strToNat? (String.mk ds) }
          else none
      | '/' :: t =>
        if t ≠ [] && t.all Char.isDigit then
          some { key, id := (strToNat? (String.mk t)).map (fun n => .num n) }
        else
          match t with
          | [] => none
          | d :: ds =>
            if isIdStart d && ds.all isKeyChar then
              some { key, id := some (.str (String.mk t)) }
            else none
      | _ => none

/-- Enumerable own keys and values of a value, as `Object.keys` /
`Object.values` (array indices in order, then stored string properties). -/
def ownEntries : Value → List (String × Value)
  | .obj fs => fs
  | .arr es ps => es.enum.map (fun p => (toString p.1, p.2)) ++ ps
  | _ => []

/-- Parsing of one element of a path array (string or single-key object);
anything else throws.  An object-form id that is literally `undefined` is
normalized to an absent id, matching every later `id === undefined` use. -/
def parseElem (v : Value) : Except JsErr PathSeg :=
  if !truthy v then .error .parseError
  else
    match v with
    | .str s => ((matchPathElem s).elim (.error .parseError) .ok)
    | .obj _ | .arr _ _ =>
      match ownEntries v with
      | [(k, w)] =>
        .ok { key := k, id := if w == .undef then none else some w }
      | _ => .error .parseError
    | _ => .error .parseError

/-- Traversal for `parsePath`'s per-element loop. -/
def parseElems : List Value → Except JsErr (List PathSeg)
  | [] => .ok []
  | v :: rest => do
    let s ← parseElem v
    let ss ← parseElems rest
    .ok (s :: ss)

/-- The `parsePath(path)` method: a dotted string is split at `.`, an
array is taken element-wise, a single-key object is a one-element path;
falsy or otherwise shaped paths throw. -/
def parsePath (path : Value) : Except JsErr (List PathSeg) :=
  if !truthy path then .error .parseError
  else
    match path with
    | .str s =>
      parseElems ((if s.toList.contains '.' then splitDot s else [s]).map .str)
    | .arr es _ => parseElems es
    | .obj fs =>
      if fs.length == 1 then parseElems [.obj fs] else .error .parseError
    | _ => .error .parseError

/-- One element of `getSubPath`'s reconstruction: `{key: id}` for id
segments, `"key[index]"`, `"key[]"`, or the bare key. -/
def segToElem (s : PathSeg) : Value :=
  match s.id with
  | some v => .obj [(s.key, v)]
  | none =>
    match s.index with
    | some i => .str (s.key ++ "[" ++ toString i ++ "]")
    | none => if s.appendArray then .str (s.key ++ "[]") else .str s.key

/-- The `getSubPath(parsedPathArray, start, end)` method (the inverse of
`parsePath`, used to address the backend and to PUT fetched values back). -/
def getSubPath (pp : List PathSeg) (a b : Nat) : Value :=
  .arr (((pp.drop a).take (b - a)).map segToElem) []

/-- The per-instance configuration (`DEFAULT_CONFIG` merged with the
constructor argument).  `fetchFunc` is the abstract backend: a pure
function from a path to the fetched value (fetch always succeeds; backend
failures are not needed by any claim).  `callBackend`: 1 =
FORCE_BACKEND_CALL, 0 = CALL_BACKEND_WHEN_EXPIRED, -1 =
DO_NOT_CALL_BACKEND. -/
structure Config where
  fetchFunc : Option (Value → Value) := none
  callBackend : Int := 0
  ttl : Int := 60000
  populate : Bool := true
  idAttr : String := "_id"
  referencedPathAttr : String := "$refPath"
  merge : Bool := false

/-- A subscribed listener (the callback itself is not modelled; its
invocations are recorded as events `(listenerId, path, value)`). -/
structure Listener where
  listenerId : Nat
  path : List PathSeg
  exact : Bool := false

/-- A cache instance: the two mirrored trees, the listener list and the
instance configuration. -/
structure CacheState where
  data : Value := .obj []
  meta : Value := .obj []
  listeners : List Listener := []
  cfg : Config := {}

/-- Objects and arrays are the mutable reference values of JS. -/
def Value.isObjOrArr : Value → Bool
  | .obj _ => true
  | .arr _ _ => true
  | _ => false

/-- Total property write used for the write-backs that model JS in-place
mutation of an already-linked child (the container is an object/array at
every use site, so the `setP` cannot fail there). -/
def forceSetP (container : Value) (k : String) (v : Value) : Value :=
  (container.setP k v).toOption.getD container

/-- Total indexed write, analogous to `forceSetP`. -/
def forceSetIdx (container : Value) (i : Nat) (v : Value) : Value :=
  (container.setIdx i v).toOption.getD container

/-- The idiom `container[k] || (container[k] = fresh)`: returns the (new)
child and the (possibly updated) container. -/
def vivifyP (container : Value) (k : String) (fresh : Value) :
    Except JsErr (Value × Value) := do
  let c ← container.getP k
  if truthy c then .ok (c, container)
  else do
    let container' ← container.setP k fresh
    .ok (fresh, container')

/-- Truthiness of a possibly absent id property. -/
def idTruthy : Option Value → Bool
  | none => false
  | some v => truthy v

/-- JS strict equality between two possibly-`undefined` id properties. -/
def strictEqOptId : Option Value → Option Value → Bool
  | none, none => true
  | some a, some b => strictEq a b
  | _, _ => false

/-- Truthiness of a possibly absent numeric index property. -/
def idxTruthy : Option Nat → Bool
  | none => false
  | some n => n != 0

/-- The matching loop inside `firePutEvent` for one listener: walks the
listener's path against the put's parsed path while `match` stays true.
Reading `parsedPath[i].key` when the parsed path is exhausted (and the
prefix matched so far) throws a TypeError, exactly as in the source. -/
def listenerMatchLoop : List PathSeg → List PathSeg → Except JsErr Bool
  | [], _ => .ok true
  | _ :: _, [] => .error .typeError
  | lseg :: lrest, pseg :: prest =>
    let m1 := lseg.key == pseg.key
    let m2 := !(idTruthy lseg.id && !strictEqOptId lseg.id pseg.id)
    let m3 := !(idxTruthy lseg.index && !(lseg.index == pseg.index))
    if m1 && m2 && m3 then listenerMatchLoop lrest prest else .ok false

/-- Whether one listener matches a put's parsed path:
`l.exact === false || parsedPath.length === l.path.length`, then the
segment-comparison loop. -/
def listenerMatch (l : Listener) (pp : List PathSeg) : Except JsErr Bool :=
  if l.exact == false || pp.length == l.path.length then
    listenerMatchLoop l.path pp
  else .ok false

/-- The `firePutEvent` forEach over listeners, in registration order.
Each matching listener contributes an event `(listenerId, path, value)`
with the caller's original path and value; a TypeError thrown while
matching aborts the iteration (later listeners are not reached). -/
def fireEvents (origPath valueArg : Value) (pp : List PathSeg) :
    List Listener → List (Nat × Value × Value) × Option JsErr
  | [] => ([], none)
  | l :: rest =>
    match listenerMatch l pp with
    | .error e => ([], some e)
    | .ok true =>
      let (evs, err) := fireEvents origPath valueArg pp rest
      ((l.listenerId, origPath, valueArg) :: evs, err)
    | .ok false => fireEvents origPath valueArg pp rest

/-- Outcome of a `put` call: `err = none` iff the call returned normally.
`data`/`meta` are the trees after the call — also when `err` is set,
because the source mutates the trees in place on the way to a `throw`.
`fired` records each `firePutEvent` invocation (the original path and the
value — after the id auto-heal, which mutates the caller's object);
`notified` records the listener callbacks actually invoked. -/
structure PutRes where
  err : Option JsErr := none
  data : Value
  meta : Value
  fired : List (Value × Value) := []
  notified : List (Nat × Value × Value) := []

/-- The classification of a path segment into the four `put`/`get`
branch kinds, in the source's testing order.  `invalid` is the final
`else` (throw).  GET does not test `appendArray` in its first condition,
hence the `forGet` flag. -/
inductive SegKind where
  | plain
  | append
  | indexed : Nat → SegKind
  | ident : Value → SegKind
  | invalid
deriving Repr, DecidableEq

/-- Branch selection for one segment (`forGet = true` omits the
`!appendArray` conjunct of the first condition, as in `get`/`getSync`). -/
def segKind (forGet : Bool) (seg : PathSeg) : SegKind :=
  if seg.key != "" && seg.index == none && seg.id == none &&
      (forGet || !seg.appendArray) then .plain
  else if seg.key != "" && seg.index == none && seg.id == none &&
      seg.appendArray then .append
  else if seg.key != "" && seg.index.isSome && seg.id == none then
    .indexed (seg.index.getD 0)
  else if seg.key != "" && seg.index == none && idTruthy seg.id then
    .ident (seg.id.getD .undef)
  else .invalid

/-- Step both trees through `container[k] || (container[k] = fresh)`; an
error carries the partially mutated pair (data may have been vivified
before the metadata write threw). -/
def vivify2 (d m : Value) (k : String) (fresh : Value) :
    Except (JsErr × Value × Value) (Value × Value × Value × Value) :=
  match vivifyP d k fresh with
  | .error e => .error (e, d, m)
  | .ok (c, d1) =>
    match vivifyP m k fresh with
    | .error e => .error (e, d1, m)
    | .ok (mc, m1) => .ok (c, mc, d1, m1)

/-- The idiom `container[i] || (container[i] = fresh)` on an index. -/
def vivifyIdx (cont : Value) (i : Nat) (fresh : Value) :
    Except JsErr (Value × Value) := do
  let c ← cont.getIdx i
  if truthy c then .ok (c, cont)
  else (cont.setIdx i fresh).map (fun cont2 => (fresh, cont2))

/-- Write the recursion's updated child back into the parent slot.  JS
mutates the linked child in place; for a primitive child (which JS cannot
mutate, and which the recursion returned unchanged) nothing happens. -/
def installP (child container : Value) (k : String) (new : Value) : Value :=
  if child.isObjOrArr then forceSetP container k new else container

/-- `findIndex` by strict id equality plus the push of the synthesized
`{[idAttr]: id}` stub when no element matches: returns the element index,
the (possibly extended) array and whether a stub was pushed. -/
def idLocate (a : Value) (idAttr : String) (idv : Value) :
    Except JsErr (Nat × Value × Bool) :=
  match a.findIdxStrict idAttr idv with
  | .error e => .error e
  | .ok (some ix) => .ok (ix, a, false)
  | .ok none =>
    match a with
    | .arr es ps => .ok (es.length, .arr (es ++ [.obj [(idAttr, idv)]]) ps,
        true)
    | _ => .ok (0, a, true)

/-- The fresh leaf metadata record `{ ttl: now + opts.ttl, type: typeof
value }`. -/
def mkMeta (opts : Config) (now : Int) (valueArg : Value) : Value :=
  .obj [("ttl", .num (now + opts.ttl)), ("type", .str (typeofVal valueArg))]

/-- The leaf write of a plain-key segment. -/
def putPlainLeaf (opts : Config) (now : Int) (ls : List Listener)
    (origPath : Value) (fullPP : List PathSeg) (key : String)
    (valueArg d m : Value) : PutRes :=
  match (if opts.merge && typeofVal valueArg == "object" then
          (d.getP key).map (fun old => mergeSpread old valueArg)
        else .ok valueArg) with
  | .error e => { err := some e, data := d, meta := m }
  | .ok stored =>
    match d.setP key stored with
    | .error e => { err := some e, data := d, meta := m }
    | .ok d1 =>
      match m.setP key (mkMeta opts now valueArg) with
      | .error e => { err := some e, data := d1, meta := m }
      | .ok m1 =>
        let (evs, ferr) := fireEvents origPath valueArg fullPP ls
        { err := ferr, data := d1, meta := m1,
          fired := [(origPath, valueArg)], notified := evs }

/-- The leaf write of an append-marker segment (after vivification):
requires an array, pushes value and metadata. -/
def putAppendLeaf (opts : Config) (now : Int) (ls : List Listener)
    (origPath : Value) (fullPP : List PathSeg) (key : String)
    (valueArg a ma d1 m1 : Value) : PutRes :=
  if !a.isArr then { err := some .appendNotArray, data := d1, meta := m1 }
  else
    let a1 := (a.pushV valueArg).toOption.getD a
    let d2 := forceSetP d1 key a1
    match ma.pushV (mkMeta opts now valueArg) with
    | .error e => { err := some e, data := d2, meta := m1 }
    | .ok ma1 =>
      let m2 := forceSetP m1 key ma1
      let (evs, ferr) := fireEvents origPath valueArg fullPP ls
      { err := ferr, data := d2, meta := m2,
        fired := [(origPath, valueArg)], notified := evs }

/-- The leaf write of an index-addressed segment (after vivification). -/
def putIndexLeaf (opts : Config) (now : Int) (ls : List Listener)
    (origPath : Value) (fullPP : List PathSeg) (key : String) (i : Nat)
    (valueArg a ma d1 m1 : Value) : PutRes :=
  match (if opts.merge && typeofVal valueArg == "object" then
          (a.getIdx i).map (fun old => mergeSpread old valueArg)
        else .ok valueArg) with
  | .error e => { err := some e, data := d1, meta := m1 }
  | .ok stored =>
    match a.setIdx i stored with
    | .error e => { err := some e, data := d1, meta := m1 }
    | .ok a1 =>
      let d2 := forceSetP d1 key a1
      match ma.setIdx i (mkMeta opts now valueArg) with
      | .error e => { err := some e, data := d2, meta := m1 }
      | .ok ma1 =>
        let m2 := forceSetP m1 key ma1
        let (evs, ferr) := fireEvents origPath valueArg fullPP ls
        { err := ferr, data := d2, meta := m2,
          fired := [(origPath, valueArg)], notified := evs }

/-- The leaf write of an identity-addressed segment, after the strict
lookup/stub push (`fi`, `a1` from `idLocate`; `d2` holds `a1`): the
scalar check, the loose ID-mismatch check, the auto-heal of a missing id
field, the write and the fresh metadata with the id field. -/
def putIdLeaf (opts : Config) (now : Int) (ls : List Listener)
    (origPath : Value) (fullPP : List PathSeg) (key : String) (idv : Value)
    (fi : Nat) (valueArg a1 ma d2 m1 : Value) : PutRes :=
  if typeofVal valueArg != "object" then
    { err := some .scalarUnderId, data := d2, meta := m1 }
  else
    let idField := (valueArg.getP opts.idAttr).toOption.getD .undef
    if truthy valueArg && truthy idField && !looseEq idField idv then
      { err := some .idMismatch, data := d2, meta := m1 }
    else
      let healed := if truthy valueArg && idField == .undef then
          forceSetP valueArg opts.idAttr idv
        else valueArg
      let stored := if opts.merge && typeofVal healed == "object" then
          mergeSpread ((a1.getIdx fi).toOption.getD .undef) healed
        else healed
      let a2 := forceSetIdx a1 fi stored
      let d3 := forceSetP d2 key a2
      let mval : Value := .obj [(opts.idAttr, idv),
        ("ttl", .num (now + opts.ttl)), ("type", .str (typeofVal healed))]
      match ma.setIdx fi mval with
      | .error e => { err := some e, data := d3, meta := m1 }
      | .ok ma1 =>
        let m2 := forceSetP m1 key ma1
        let (evs, ferr) := fireEvents origPath healed fullPP ls
        { err := ferr, data := d3, meta := m2,
          fired := [(origPath, healed)], notified := evs }

/-- The walk of `put(path, value, options)` over the parsed path,
returning the updated subtrees rooted at the current cursor pair.  JS
in-place child mutation is rendered by writing the recursion's result
back into the parent slot (`installP`); the write-back is skipped for
primitive children, which JS cannot mutate (the recursion then returned
an error without changing them). -/
def putRec (opts : Config) (now : Int) (ls : List Listener)
    (origPath : Value) (fullPP : List PathSeg) :
    List PathSeg → Value → Value → Value → PutRes
  | [], _, d, m => { err := none, data := d, meta := m }
  | seg :: rest, valueArg, d, m =>
    match segKind false seg with
    | .plain =>
      if rest.isEmpty then
        putPlainLeaf opts now ls origPath fullPP seg.key valueArg d m
      else
        match vivify2 d m seg.key (.obj []) with
        | .error (e, d1, m1) => { err := some e, data := d1, meta := m1 }
        | .ok (c, mc, d1, m1) =>
          let r := putRec opts now ls origPath fullPP rest valueArg c mc
          let nd := installP c d1 seg.key r.data
          let nm := installP mc m1 seg.key r.meta
          { r with data := nd, meta := nm }
    | .append =>
      match vivify2 d m seg.key (.arr [] []) with
      | .error (e, d1, m1) => { err := some e, data := d1, meta := m1 }
      | .ok (a, ma, d1, m1) =>
        if !rest.isEmpty then
          { err := some .appendMidPath, data := d1, meta := m1 }
        else putAppendLeaf opts now ls origPath fullPP seg.key valueArg a ma
          d1 m1
    | .indexed i =>
      match vivify2 d m seg.key (.arr [] []) with
      | .error (e, d1, m1) => { err := some e, data := d1, meta := m1 }
      | .ok (a, ma, d1, m1) =>
        if rest.isEmpty then
          putIndexLeaf opts now ls origPath fullPP seg.key i valueArg a ma
            d1 m1
        else
          match vivifyIdx a i (.obj []) with
          | .error e => { err := some e, data := d1, meta := m1 }
          | .ok (c, aPre) =>
            let d2 := installP a d1 seg.key aPre
            match vivifyIdx ma i (.obj []) with
            | .error e => { err := some e, data := d2, meta := m1 }
            | .ok (mc, maPre) =>
              let m2 := installP ma m1 seg.key maPre
              let r := putRec opts now ls origPath fullPP rest valueArg c mc
              let nd := installP c d2 seg.key (forceSetIdx aPre i r.data)
              let nm := installP mc m2 seg.key (forceSetIdx maPre i r.meta)
              { r with data := nd, meta := nm }
    | .ident idv =>
      match vivify2 d m seg.key (.arr [] []) with
      | .error (e, d1, m1) => { err := some e, data := d1, meta := m1 }
      | .ok (a, ma, d1, m1) =>
        match idLocate a opts.idAttr idv with
        | .error e => { err := some e, data := d1, meta := m1 }
        | .ok (fi, a1, pushed) =>
          let d2 := if pushed then forceSetP d1 seg.key a1 else d1
          if rest.isEmpty then
            putIdLeaf opts now ls origPath fullPP seg.key idv fi valueArg a1
              ma d2 m1
          else
            let child := (a1.getIdx fi).toOption.getD .undef
            match vivifyIdx ma fi (.obj [(opts.idAttr, idv)]) with
            | .error e => { err := some e, data := d2, meta := m1 }
            | .ok (mc, maPre) =>
              let m2 := installP ma m1 seg.key maPre
              let r := putRec opts now ls origPath fullPP rest valueArg
                child mc
              let nd := installP child d2 seg.key (forceSetIdx a1 fi r.data)
              let nm := installP mc m2 seg.key (forceSetIdx maPre fi r.meta)
              { r with data := nd, meta := nm }
    | .invalid => { err := some .invalidPathElem, data := d, meta := m }

/-- The `put(path, value, options)` method.  `opts` is the already merged
`{...this.config, ...options}` record; `now` is `Date.now()` for the
call.  A parse error throws before any mutation. -/
def putO (st : CacheState) (path valueArg : Value) (opts : Config)
    (now : Int) : PutRes :=
  match parsePath path with
  | .error e => { err := some e, data := st.data, meta := st.meta }
  | .ok pp => putRec opts now st.listeners path pp pp valueArg st.data st.meta

/-- A `put` with no options argument (uses the instance config). -/
def putD (st : CacheState) (path valueArg : Value) (now : Int) : PutRes :=
  putO st path valueArg st.cfg now

/-- Fold a put result back into the cache state. -/
def applyPut (st : CacheState) (r : PutRes) : CacheState :=
  { st with data := r.data, meta := r.meta }

/-- The `delete(path)` method: `this.put(path, undefined, -1)`.  Spreading
the number `-1` into the options object contributes no properties, so the
effective options are exactly the instance config. -/
def deletePC (st : CacheState) (path : Value) (now : Int) : PutRes :=
  putO st path .undef st.cfg now

/-- An accessor step into a tree (property or array index).  The walk of
`get` holds its `metadataElem` cursor as such a chain, re-resolved against
the current metadata tree at each use: in the source the cursor is a live
reference into the tree, so a `put` performed by an intermediate
`fetchIfExpired` is visible through it.  (A cursor detached by replacement
of a strict ancestor slot — only reachable through self-referential
configurations — resolves through the new tree instead; outside the
model.) -/
inductive Acc where
  | prop : String → Acc
  | idx : Nat → Acc
deriving Repr, DecidableEq

/-- Resolve an accessor chain against a tree (reads that would throw on
`null`/`undefined` resolve to `undefined`; see `Acc`). -/
def resolveAcc : Value → List Acc → Value
  | root, [] => root
  | root, .prop k :: rest =>
    resolveAcc ((root.getP k).toOption.getD .undef) rest
  | root, .idx i :: rest =>
    resolveAcc ((root.getIdx i).toOption.getD .undef) rest

/-- Write `v` at the end of an accessor chain (models mutation through a
live reference obtained from the cache). -/
def setAtAcc : Value → List Acc → Value → Value
  | _, [], v => v
  | root, .prop k :: rest, v =>
    forceSetP root k (setAtAcc ((root.getP k).toOption.getD .undef) rest v)
  | root, .idx i :: rest, v =>
    forceSetIdx root i (setAtAcc ((root.getIdx i).toOption.getD .undef) rest v)

/-- Result triple of an asynchronous cache read: the settled promise, the
cache state afterwards, and the ordered list of paths passed to
`fetchFunc`. -/
abbrev GetOut := Except JsErr Value × CacheState × List Value

/-- The `fetchIfExpired(path, cacheElem, metadata, opts)` method.  In the
FORCE and default-fetch branches the fetched value is `put` back with the
instance config (`this.put(path, res)`), and a throw from that `put`
rejects the promise with the cache left partially mutated. -/
def fetchIfExpired (st : CacheState) (opts : Config) (now : Int)
    (pathArg cacheElem metadata : Value) : GetOut :=
  let doFetch : GetOut :=
    match opts.fetchFunc with
    | none => (.error .typeError, st, [])
    | some f =>
      let res := f pathArg
      let pr := putO st pathArg res st.cfg now
      match pr.err with
      | some e => (.error e, applyPut st pr, [pathArg])
      | none => (.ok res, applyPut st pr, [pathArg])
  let expired := truthy metadata &&
    jsLt ((metadata.getP "ttl").toOption.getD .undef) now
  if opts.callBackend == 1 then doFetch
  else if opts.callBackend == -1 then
    if expired then (.error .rejectedUndefined, st, [])
    else (.ok cacheElem, st, [])
  else if !truthy cacheElem || expired then doFetch
  else (.ok cacheElem, st, [])

/-- The final step of `get`'s walk: `fetchIfExpired` on the normalized
full path with the current cursor and metadata. -/
def getFinal (opts : Config) (now : Int) (fullPP : List PathSeg)
    (st : CacheState) (cursor : Value) (mchain : List Acc)
    (fetches : List Value) : Option GetOut :=
  let (r, st', fs) := fetchIfExpired st opts now
    (getSubPath fullPP 0 fullPP.length) cursor (resolveAcc st.meta mchain)
  some (r, st', fetches ++ fs)

/-- The reference-population step shared by the three `get` branches:
`if (opts.populate && cacheElem[referencedPathAttr]) cacheElem = await
this.get(cacheElem[referencedPathAttr], opts)`. -/
def popResolve (inner : CacheState → Value → Option GetOut) (opts : Config)
    (c : Value) (st : CacheState) (fetches : List Value) :
    Option (Except JsErr Value × CacheState × List Value) :=
  let refv := (c.getP opts.referencedPathAttr).toOption.getD .undef
  if opts.populate && truthy refv then
    match inner st refv with
    | none => none
    | some (r, st2, fs2) => some (r, st2, fetches ++ fs2)
  else some (.ok c, st, fetches)

/-- Outcome of a branch's metadata inspection: whether the
`metadataElem && metadataElem[key] …` guard passed, whether the consulted
`ttl` is in the past, and the accessor steps `metadataElem` takes. -/
structure MetaStep where
  guard : Bool
  expired : Bool
  accs : List Acc
deriving Repr, DecidableEq

/-- Metadata inspection of the plain-key branch of `get`
(`metadataElem[key].ttl < Date.now()`). -/
def metaStepP (mRoot : Value) (mchain : List Acc) (key : String)
    (now : Int) : MetaStep :=
  let mE := resolveAcc mRoot mchain
  let mk := cond (truthy mE) ((mE.getP key).toOption.getD .undef) .undef
  { guard := truthy mE && truthy mk,
    expired := jsLt ((mk.getP "ttl").toOption.getD .undef) now,
    accs := [.prop key] }

/-- Metadata inspection of the index/id branches of `get`
(`metadataElem[key][index].ttl < Date.now()`). -/
def metaStepIdx (mRoot : Value) (mchain : List Acc) (key : String) (i : Nat)
    (now : Int) : MetaStep :=
  let mE := resolveAcc mRoot mchain
  let mk := cond (truthy mE) ((mE.getP key).toOption.getD .undef) .undef
  let mki := cond (truthy mk) ((mk.getIdx i).toOption.getD .undef) .undef
  { guard := truthy mE && truthy mk && truthy mki,
    expired := jsLt ((mki.getP "ttl").toOption.getD .undef) now,
    accs := [.prop key, .idx i] }

/-- The walk of `get(path, options)` along the parsed path.  `inner` is
the recursive `this.get(refPath, opts)` used to populate reference
markers (fuel-limited by the caller).  The data cursor is carried as a
value: the source reassigns it at every point at which the trees are
mutated.  `segKind true` mirrors `get`'s branch conditions (its first
condition does not test `appendArray`, so the `append` class cannot
arise; the arm is kept for totality). -/
def getWalk (inner : CacheState → Value → Option GetOut) (opts : Config)
    (now : Int) (fullPP : List PathSeg) :
    List PathSeg → List PathSeg → Value → List Acc → CacheState →
    List Value → Option GetOut
  | [], _, cursor, mchain, st, fetches =>
    getFinal opts now fullPP st cursor mchain fetches
  | seg :: rest, pre, cursor, mchain, st, fetches =>
    match segKind true seg with
    | .plain =>
      match cursor.getP seg.key with
      | .error e => some (.error e, st, fetches)
      | .ok c =>
        if !truthy c then getFinal opts now fullPP st c mchain fetches
        else
          match popResolve inner opts c st fetches with
          | none => none
          | some (.error e, st2, fs) => some (.error e, st2, fs)
          | some (.ok c1, st1, f1) =>
            let ms := metaStepP st1.meta mchain seg.key now
            if ms.guard then
              if ms.expired then
                match fetchIfExpired st1 opts now
                  (getSubPath fullPP 0 (pre.length + 1)) .undef .undef with
                | (.error e, st2, fs2) => some (.error e, st2, f1 ++ fs2)
                | (.ok c2, st2, fs2) =>
                  getWalk inner opts now fullPP rest (pre ++ [seg]) c2
                    (mchain ++ ms.accs) st2 (f1 ++ fs2)
              else
                getWalk inner opts now fullPP rest (pre ++ [seg]) c1
                  (mchain ++ ms.accs) st1 f1
            else
              getWalk inner opts now fullPP rest (pre ++ [seg]) c1 mchain
                st1 f1
    | .indexed i =>
      match cursor.getP seg.key with
      | .error e => some (.error e, st, fetches)
      | .ok kv =>
        match kv.getIdx i with
        | .error e => some (.error e, st, fetches)
        | .ok c =>
          if !truthy c then getFinal opts now fullPP st c mchain fetches
          else
            match popResolve inner opts c st fetches with
            | none => none
            | some (.error e, st2, fs) => some (.error e, st2, fs)
            | some (.ok c1, st1, f1) =>
              let ms := metaStepIdx st1.meta mchain seg.key i now
              if ms.guard then
                if ms.expired then
                  match fetchIfExpired st1 opts now
                    (getSubPath fullPP 0 (pre.length + 1)) .undef .undef with
                  | (.error e, st2, fs2) => some (.error e, st2, f1 ++ fs2)
                  | (.ok c2, st2, fs2) =>
                    getWalk inner opts now fullPP rest (pre ++ [seg]) c2
                      (mchain ++ ms.accs) st2 (f1 ++ fs2)
                else
                  getWalk inner opts now fullPP rest (pre ++ [seg]) c1
                    (mchain ++ ms.accs) st1 f1
              else
                getWalk inner opts now fullPP rest (pre ++ [seg]) c1 mchain
                  st1 f1
    | .ident idv =>
      match cursor.getP seg.key with
      | .error e => some (.error e, st, fetches)
      | .ok a =>
        if !truthy a then getFinal opts now fullPP st cursor mchain fetches
        else
          match a.findIdxLoose opts.idAttr idv with
          | .error e => some (.error e, st, fetches)
          | .ok none => getFinal opts now fullPP st cursor mchain fetches
          | .ok (some ix) =>
            let c := (a.getIdx ix).toOption.getD .undef
            match popResolve inner opts c st fetches with
            | none => none
            | some (.error e, st2, fs) => some (.error e, st2, fs)
            | some (.ok c1, st1, f1) =>
              let ms := metaStepIdx st1.meta mchain seg.key ix now
              if ms.guard then
                if ms.expired then
                  match fetchIfExpired st1 opts now
                    (getSubPath fullPP 0 (pre.length + 1)) .undef .undef with
                  | (.error e, st2, fs2) => some (.error e, st2, f1 ++ fs2)
                  | (.ok c2, st2, fs2) =>
                    getWalk inner opts now fullPP rest (pre ++ [seg]) c2
                      (mchain ++ ms.accs) st2 (f1 ++ fs2)
                else
                  getWalk inner opts now fullPP rest (pre ++ [seg]) c1
                    (mchain ++ ms.accs) st1 f1
              else
                getWalk inner opts now fullPP rest (pre ++ [seg]) c1 mchain
                  st1 f1
    | .append => some (.error .invalidPathElem, st, fetches)
    | .invalid => some (.error .invalidPathElem, st, fetches)

/-- The `get(path, options)` method, fuel-limited through the recursion
that populates reference markers.  `opts` is the merged
`{...this.config, ...options}` record; a missing `fetchFunc` rejects
immediately; a parse error rejects the promise.  `none` = fuel exhausted
(the source can recurse forever through cyclic references). -/
def getFuel : Nat → CacheState → Value → Config → Int → Option GetOut
  | 0, _, _, _, _ => none
  | fuel + 1, st, path, opts, now =>
    if opts.fetchFunc.isNone then some (.error .needFetchFunc, st, [])
    else
      match parsePath path with
      | .error e => some (.error e, st, [])
      | .ok pp =>
        getWalk (fun st' p => getFuel fuel st' p opts now) opts now pp
          pp [] st.data [] st []

/-- The walk of `getSync(path, options, throwWhenExpired)`: read-only, so
the metadata cursor is carried as a plain value.  `inner` is the
recursive `this.getSync(refPath, opts)` (with `throwWhenExpired` left at
its default `false`).  Note the source's expiry checks for index- and
id-addressed elements: the guard steps into `metadataElem[key][index]`
but the comparison reads `metadataElem[key].ttl` — the `ttl` property of
the metadata *array*, which is undefined. -/
def getSyncWalk (inner : Value → Option (Except JsErr Value))
    (opts : Config) (now : Int) (throwWhenExpired : Bool) :
    List PathSeg → Value → Value → Option (Except JsErr Value)
  | [], cursor, _ => some (.ok cursor)
  | seg :: rest, cursor, mE =>
    let keyT := seg.key != ""
    if keyT && seg.index == none && seg.id == none then
      match cursor.getP seg.key with
      | .error e => some (.error e)
      | .ok c =>
        if !truthy c then some (.ok .undef)
        else
          let refv := (c.getP opts.referencedPathAttr).toOption.getD .undef
          let popped : Option (Except JsErr Value) :=
            if opts.populate && truthy refv then inner refv else some (.ok c)
          match popped with
          | none => none
          | some (.error e) => some (.error e)
          | some (.ok c1) =>
            let mk := if truthy mE then (mE.getP seg.key).toOption.getD .undef
              else .undef
            if truthy mE && truthy mk then
              if jsLt ((mk.getP "ttl").toOption.getD .undef) now then
                if throwWhenExpired then some (.error .expiredSync)
                else some (.ok .undef)
              else getSyncWalk inner opts now throwWhenExpired rest c1 mk
            else getSyncWalk inner opts now throwWhenExpired rest c1 mE
    else if keyT && seg.index.isSome && seg.id == none then
      let i := seg.index.getD 0
      match cursor.getP seg.key with
      | .error e => some (.error e)
      | .ok kv =>
        match kv.getIdx i with
        | .error e => some (.error e)
        | .ok c =>
          if !truthy c then some (.ok .undef)
          else
            let refv := (c.getP opts.referencedPathAttr).toOption.getD .undef
            let popped : Option (Except JsErr Value) :=
              if opts.populate && truthy refv then inner refv
              else some (.ok c)
            match popped with
            | none => none
            | some (.error e) => some (.error e)
            | some (.ok c1) =>
              let mk := if truthy mE then
                  (mE.getP seg.key).toOption.getD .undef
                else .undef
              let mki := if truthy mk then (mk.getIdx i).toOption.getD .undef
                else .undef
              if truthy mE && truthy mk && truthy mki then
                if jsLt ((mk.getP "ttl").toOption.getD .undef) now then
                  if throwWhenExpired then some (.error .expiredSync)
                  else some (.ok .undef)
                else getSyncWalk inner opts now throwWhenExpired rest c1 mki
              else getSyncWalk inner opts now throwWhenExpired rest c1 mE
    else if keyT && seg.index == none && idTruthy seg.id then
      let idv := seg.id.getD .undef
      match cursor.getP seg.key with
      | .error e => some (.error e)
      | .ok a =>
        if !truthy a then some (.ok .undef)
        else
          match a.findIdxLoose opts.idAttr idv with
          | .error e => some (.error e)
          | .ok none => some (.ok .undef)
          | .ok (some ix) =>
            let c := (a.getIdx ix).toOption.getD .undef
            let refv := (c.getP opts.referencedPathAttr).toOption.getD .undef
            let popped : Option (Except JsErr Value) :=
              if opts.populate && truthy refv then inner refv
              else some (.ok c)
            match popped with
            | none => none
            | some (.error e) => some (.error e)
            | some (.ok c1) =>
              let mk := if truthy mE then
                  (mE.getP seg.key).toOption.getD .undef
                else .undef
              let mki := if truthy mk then (mk.getIdx ix).toOption.getD .undef
                else .undef
              if truthy mE && truthy mk && truthy mki then
                if jsLt ((mk.getP "ttl").toOption.getD .undef) now then
                  if throwWhenExpired then some (.error .expiredSync)
                  else some (.ok .undef)
                else getSyncWalk inner opts now throwWhenExpired rest c1 mki
              else getSyncWalk inner opts now throwWhenExpired rest c1 mE
    else some (.error .invalidPathElem)

/-- The `getSync(path, options, throwWhenExpired)` method.  It never
consults `fetchFunc` and never mutates the cache; all failures are
synchronous throws. -/
def getSyncFuel : Nat → CacheState → Value → Config → Int → Bool →
    Option (Except JsErr Value)
  | 0, _, _, _, _, _ => none
  | fuel + 1, st, path, opts, now, throwWhenExpired =>
    match parsePath path with
    | .error e => some (.error e)
    | .ok pp =>
      getSyncWalk (fun p => getSyncFuel fuel st p opts now false) opts now
        throwWhenExpired pp st.data st.meta

/-- The `isInCache(path)` method: `getSync(path)` (default options, no
throw-on-expired) inside try/catch; true iff the result is defined. -/
def isInCacheFuel (fuel : Nat) (st : CacheState) (path : Value)
    (now : Int) : Option Bool :=
  match getSyncFuel fuel st path st.cfg now false with
  | none => none
  | some (.error _) => some false
  | some (.ok v) => some (v != .undef)

/-- The loop of `populate` over the elements of an array argument:
`elem[i]` is replaced by the populated/resolved element (the source
mutates `elem[i]` in place; the model rebuilds the list). -/
def populateArr (getI : CacheState → Value → Option GetOut)
    (popI : CacheState → Value → Option GetOut) (refAttr : String) :
    List Value → CacheState → List Value →
    Option (Except JsErr (List Value) × CacheState × List Value)
  | [], st, fetches => some (.ok [], st, fetches)
  | el :: rest, st, fetches =>
    match el.getP refAttr with
    | .error e => some (.error e, st, fetches)
    | .ok refv =>
      let stepped : Option GetOut :=
        if truthy refv then getI st refv else popI st el
      match stepped with
      | none => none
      | some (.error e, st', fs) => some (.error e, st', fetches ++ fs)
      | some (.ok el', st', fs) =>
        match populateArr getI popI refAttr rest st' (fetches ++ fs) with
        | none => none
        | some (.error e, st2, f2) => some (.error e, st2, f2)
        | some (.ok rest', st2, f2) => some (.ok (el' :: rest'), st2, f2)

/-- The loop of `populate` over the fields of an object argument. -/
def populateObj (getI : CacheState → Value → Option GetOut)
    (popI : CacheState → Value → Option GetOut) (refAttr refProp : String) :
    List (String × Value) → CacheState → List Value →
    Option (Except JsErr (List (String × Value)) × CacheState × List Value)
  | [], st, fetches => some (.ok [], st, fetches)
  | (k, w) :: rest, st, fetches =>
    let isRef : Except JsErr Bool :=
      if k == refProp then (w.getP refAttr).map truthy else .ok false
    match isRef with
    | .error e => some (.error e, st, fetches)
    | .ok isR =>
      let stepped : Option GetOut :=
        if isR then
          match w.getP refAttr with
          | .error e => some (.error e, st, [])
          | .ok refv => getI st refv
        else popI st w
      match stepped with
      | none => none
      | some (.error e, st', fs) => some (.error e, st', fetches ++ fs)
      | some (.ok w', st', fs) =>
        match populateObj getI popI refAttr refProp rest st' (fetches ++ fs)
          with
        | none => none
        | some (.error e, st2, f2) => some (.error e, st2, f2)
        | some (.ok rest', st2, f2) => some (.ok ((k, w') :: rest'), st2, f2)

/-- The `populate(elem, refProp, options)` method: recursively resolves
every `refProp` field (and every array element) carrying a reference
marker through `get`.  The source assigns the resolved values back into
`elem` in place and resolves to `elem`; the model returns the updated
structure. -/
def populateFuel : Nat → CacheState → Value → String → Config → Int →
    Option GetOut
  | 0, _, _, _, _, _ => none
  | fuel + 1, st, elem, refProp, opts, now =>
    let getI := fun st' p => getFuel fuel st' p opts now
    let popI := fun st' e => populateFuel fuel st' e refProp opts now
    match elem with
    | .arr es ps =>
      match populateArr getI popI opts.referencedPathAttr es st [] with
      | none => none
      | some (.error e, st', fs) => some (.error e, st', fs)
      | some (.ok es', st', fs) => some (.ok (.arr es' ps), st', fs)
    | .obj fs =>
      match populateObj getI popI opts.referencedPathAttr refProp fs st []
        with
      | none => none
      | some (.error e, st', fsx) => some (.error e, st', fsx)
      | some (.ok fs', st', fsx) => some (.ok (.obj fs'), st', fsx)
    | .null => some (.ok .null, st, [])
    | v => some (.ok v, st, [])

/-- A `populate` applied to a structure obtained by direct reference from
the cache at accessor chain `loc`: the source's in-place assignments
(`elem[i] = await this.get(...)`, `elem[key] = await this.get(...)`)
mutate the cache's stored tree through that reference, which the model
renders by writing the populated structure back at `loc`. -/
def populateAt (fuel : Nat) (st : CacheState) (loc : List Acc)
    (refProp : String) (opts : Config) (now : Int) : Option GetOut :=
  match populateFuel fuel st (resolveAcc st.data loc) refProp opts now with
  | none => none
  | some (.error e, st', fs) => some (.error e, st', fs)
  | some (.ok v, st', fs) =>
    some (.ok v, { st' with data := setAtAcc st'.data loc v }, fs)

/-- JS ToString as used by the template literal in `path2rest`. -/
def jsToStr : Value → String
  | .num n => toString n
  | .str s => s
  | .bool b => if b then "true" else "false"
  | .null => "null"
  | .undef => "undefined"
  | .obj _ => "object Object"
  | .arr _ _ => ""

/-- One loop iteration of `path2rest`: the source reads `const el = [i]`
(the one-element array holding the loop index — not `path[i]`), so the
string branch with its index-segment check is unreachable and the object
branch emits the array's first own key `"0"` and the index. -/
def path2restStep (i : Nat) : String :=
  let el : Value := .arr [.num (Int.ofNat i)] []
  if typeofVal el == "string" then ""
  else
    match ownEntries el with
    | (k, v) :: _ => "/" ++ k ++ "/" ++ jsToStr v
    | [] => ""

/-- The `path2rest(path)` method. -/
def path2rest (path : Value) : Except JsErr String :=
  match path with
  | .arr es _ =>
    .ok (String.join ((List.range es.length).map path2restStep))
  | _ => .error .typeError

/-- The `subscribe(path, onPutFunc, exact)` method (the callback itself is
identified by the fresh `listenerId`).  `path === []` in the source is
reference equality with a fresh literal, hence always false. -/
def subscribePC (st : CacheState) (path : Value) (exact : Bool) :
    Except JsErr (CacheState × Listener) :=
  match (if path == .undef || path == .str "" then
          (.ok [] : Except JsErr (List PathSeg))
        else match parsePath path with
          | .error _ => .error .subscribeInvalidPath
          | .ok pp => .ok pp) with
  | .error e => .error e
  | .ok pp =>
    let l : Listener := ⟨st.listeners.length, pp, exact⟩
    .ok ({ st with listeners := st.listeners ++ [l] }, l)

/-! Concrete fixtures used by the example-level theorems below. -/

/-- A backend stub: always returns the string "fromServer". -/
def fetchStub : Value → Value := fun _ => .str "fromServer"

/-- A cache configuration with the default options and the stub backend. -/
def cfgEx : Config := { fetchFunc := some fetchStub }

/-- An empty cache over `cfgEx`. -/
def stEx : CacheState := { cfg := cfgEx }

/-- The no-backend (DO_NOT_CALL_BACKEND) options record. -/
def cfgNB : Config := { fetchFunc := some fetchStub, callBackend := -1 }

/-- Cache holding 0 under "k" (stored at t = 1000). -/
def stFalsy : CacheState := applyPut stEx (putD stEx (.str "k") (.num 0) 1000)

/-- Cache holding "v" under "k" (stored at t = 1000, TTL 61000). -/
def stKV : CacheState := applyPut stEx (putD stEx (.str "k") (.str "v") 1000)

/-- Cache holding "x" under "arr[0]" (stored at t = 1000, so its TTL is
61000). -/
def stArrFix : CacheState :=
  applyPut stEx (putD stEx (.str "arr[0]") (.str "x") 1000)

/-- Cache holding an object under the id-addressed path "posts/7". -/
def stIdFix : CacheState :=
  applyPut stEx
    (putD stEx (.str "posts/7") (.obj [("_id", .num 7), ("t", .str "y")]) 1000)

/-- The reference marker used by the populate fixtures. -/
def markerEx : Value := .obj [("$refPath", .str "users/u1")]

/-- The user entity the marker points at. -/
def userEx : Value := .obj [("_id", .str "u1"), ("email", .str "e@d")]

/-- Cache holding a comment whose `createdBy` field is a reference marker,
plus the referenced user (both fresh at t = 2000). -/
def stPopFix : CacheState :=
  let s1 := applyPut stEx (putD stEx (.str "comment")
    (.obj [("text", .str "t"), ("createdBy", markerEx)]) 1000)
  applyPut s1 (putD s1 (.str "users/u1") userEx 1000)

/-- A backend stub for the cascade fixture: any path fetches an object
holding "fresh" under "b". -/
def fetchC5 : Value → Value := fun _ => .obj [("b", .str "fresh")]

/-- Configuration with the cascade stub backend. -/
def cfgC5 : Config := { fetchFunc := some fetchC5 }

/-- Cache holding `{b: "x"}` under "a" (stored at t = 1000, so the
metadata of "a" carries TTL 61000). -/
def stC5 : CacheState :=
  applyPut { cfg := cfgC5 }
    (putD { cfg := cfgC5 } (.str "a") (.obj [("b", .str "x")]) 1000)

/-- Cache with one non-exact listener subscribed to the two-segment path
"one.two". -/
def stSubFix : CacheState :=
  match subscribePC stEx (.str "one.two") false with
  | .ok p => p.1
  | .error _ => stEx

/-- Whether the final segment of a parsed path is identity-addressed
(carries an id property, as "key/id" or an object token produce). -/
def lastSegHasId : List PathSeg → Bool
  | [] => false
  | [s] => s.id.isSome
  | _ :: rest => lastSegHasId rest

/-!  A sound characterization of `get`'s walk on a cache region that it
can traverse without calling the backend: every step finds a truthy
child, resolves no reference marker, and sees no expired metadata.
`getPathOk` states those conditions, `gWalkD` computes the data cursor
at the end of the walk and `gAccs` the accessor steps the metadata
cursor takes; `getWalk_pre` below proves `get` follows them. -/

/-- The id-branch element lookup of `get` (loose equality), as a total
function: the found index, or `none` when the branch would break or
throw. -/
def gFindIx (opts : Config) (a : Value) (idv : Value) : Option Nat :=
  match a.findIdxLoose opts.idAttr idv with
  | .ok (some ix) => some ix
  | _ => none

/-- One step of the metadata cursor, expressed on the cursor's resolved
value: the guard of `metadataElem && metadataElem[key] …`, the expiry of
the consulted `ttl`, and the node stepped into. -/
structure MCur where
  guard : Bool
  expired : Bool
  next : Value
deriving Repr, DecidableEq

/-- Metadata cursor step of the plain-key branch. -/
def mCurP (mcur : Value) (key : String) (now : Int) : MCur :=
  let mk := cond (truthy mcur) ((mcur.getP key).toOption.getD .undef) .undef
  ⟨truthy mcur && truthy mk,
   jsLt ((mk.getP "ttl").toOption.getD .undef) now, mk⟩

/-- Metadata cursor step of the index/id branches. -/
def mCurIdx (mcur : Value) (key : String) (i : Nat) (now : Int) : MCur :=
  let mk := cond (truthy mcur) ((mcur.getP key).toOption.getD .undef) .undef
  let mki := cond (truthy mk) ((mk.getIdx i).toOption.getD .undef) .undef
  ⟨truthy mcur && truthy mk && truthy mki,
   jsLt ((mki.getP "ttl").toOption.getD .undef) now, mki⟩

/-- The marker test of the populate step on a stepped-into child. -/
def hasMarker (opts : Config) (c : Value) : Bool :=
  opts.populate && truthy ((c.getP opts.referencedPathAttr).toOption.getD
    .undef)

/-- Conditions under which one `get` step traverses a segment without
fetching, populating or failing: a truthy child is found, it carries no
reference marker, and the consulted metadata (when the guard passes) is
not expired. -/
def getPathOk (opts : Config) (now : Int) :
    List PathSeg → Value → Value → Bool
  | [], _, _ => true
  | seg :: rest, dcur, mcur =>
    match segKind true seg with
    | .plain =>
      match dcur.getP seg.key with
      | .error _ => false
      | .ok c =>
        let s := mCurP mcur seg.key now
        truthy c && !hasMarker opts c && !(s.guard && s.expired) &&
          getPathOk opts now rest c (cond s.guard s.next mcur)
    | .indexed i =>
      match dcur.getP seg.key with
      | .error _ => false
      | .ok kv =>
        match kv.getIdx i with
        | .error _ => false
        | .ok c =>
          let s := mCurIdx mcur seg.key i now
          truthy c && !hasMarker opts c && !(s.guard && s.expired) &&
            getPathOk opts now rest c (cond s.guard s.next mcur)
    | .ident idv =>
      match dcur.getP seg.key with
      | .error _ => false
      | .ok a =>
        truthy a &&
        (match gFindIx opts a idv with
         | none => false
         | some ix =>
           let c := (a.getIdx ix).toOption.getD .undef
           let s := mCurIdx mcur seg.key ix now
           !hasMarker opts c && !(s.guard && s.expired) &&
             getPathOk opts now rest c (cond s.guard s.next mcur))
    | _ => false

/-- The data cursor at the end of a fetch-free walk. -/
def gWalkD (opts : Config) : List PathSeg → Value → Value
  | [], dcur => dcur
  | seg :: rest, dcur =>
    match segKind true seg with
    | .plain => gWalkD opts rest ((dcur.getP seg.key).toOption.getD .undef)
    | .indexed i =>
      gWalkD opts rest
        ((((dcur.getP seg.key).toOption.getD .undef).getIdx i).toOption.getD
          .undef)
    | .ident idv =>
      let a := (dcur.getP seg.key).toOption.getD .undef
      match gFindIx opts a idv with
      | some ix => gWalkD opts rest ((a.getIdx ix).toOption.getD .undef)
      | none => dcur
    | _ => dcur

/-- The accessor steps the metadata cursor takes during a fetch-free walk
(it lags in place where the guard fails). -/
def gAccs (opts : Config) (now : Int) :
    List PathSeg → Value → Value → List Acc
  | [], _, _ => []
  | seg :: rest, dcur, mcur =>
    match segKind true seg with
    | .plain =>
      let c := (dcur.getP seg.key).toOption.getD .undef
      let s := mCurP mcur seg.key now
      (cond s.guard [Acc.prop seg.key] []) ++
        gAccs opts now rest c (cond s.guard s.next mcur)
    | .indexed i =>
      let c := (((dcur.getP seg.key).toOption.getD .undef).getIdx
        i).toOption.getD .undef
      let s := mCurIdx mcur seg.key i now
      (cond s.guard [Acc.prop seg.key, Acc.idx i] []) ++
        gAccs opts now rest c (cond s.guard s.next mcur)
    | .ident idv =>
      let a := (dcur.getP seg.key).toOption.getD .undef
      match gFindIx opts a idv with
      | some ix =>
        let c := (a.getIdx ix).toOption.getD .undef
        let s := mCurIdx mcur seg.key ix now
        (cond s.guard [Acc.prop seg.key, Acc.idx ix] []) ++
          gAccs opts now rest c (cond s.guard s.next mcur)
      | none => []
    | _ => []

/-- The vivified child `container[k] || {}` taken by `put` at an
intermediate plain-key segment. -/
def vivC (d : Value) (k : String) : Value :=
  let c := (d.getP k).toOption.getD .undef
  cond (truthy c) c (.obj [])

/-- The container after the `container[k] || (container[k] = {})`
vivification. -/
def vivD (d : Value) (k : String) : Value :=
  cond (truthy ((d.getP k).toOption.getD .undef)) d
    (forceSetP d k (.obj []))

/-- The vivified child `container[k] || []` taken by `put` at an
append-, index- or identity-addressed segment. -/
def vivCA (d : Value) (k : String) : Value :=
  let c := (d.getP k).toOption.getD .undef
  cond (truthy c) c (.arr [] [])

/-- The container after the `container[k] || (container[k] = [])`
vivification. -/
def vivDA (d : Value) (k : String) : Value :=
  cond (truthy ((d.getP k).toOption.getD .undef)) d
    (forceSetP d k (.arr [] []))

/-- A plain-key path segment whose key is non-numeric and clashes with
neither the `ttl` metadata property nor the reference-marker
attribute. -/
def plainKeySeg (opts : Config) (seg : PathSeg) : Bool :=
  seg.key != "" && seg.index == none && seg.id == none &&
    !seg.appendArray && (strToNat? seg.key).isNone &&
    seg.key != "ttl" && seg.key != opts.referencedPathAttr

/-- A region of the cache on which a `put` establishes everything the
subsequent fetch-free `get` of the same path needs: every segment is a
plain key, every container along the path (pre-existing or about to be
vivified) is an object/array free of reference markers, and pre-existing
intermediate metadata is unexpired. -/
def putGetReady (opts : Config) (now : Int) :
    List PathSeg → Value → Value → Bool
  | [], _, _ => false
  | seg :: rest, d, m =>
    plainKeySeg opts seg && d.isObjOrArr && m.isObjOrArr &&
      !hasMarker opts d &&
      (rest.isEmpty ||
        (!jsLt (((vivC m seg.key).getP "ttl").toOption.getD .undef) now &&
         putGetReady opts now rest (vivC d seg.key) (vivC m seg.key)))

/-- One segment comparison of `firePutEvent`'s matching loop: key
equality, and id/index equality whenever the listener's segment pins
them. -/
def segMatch (lseg pseg : PathSeg) : Bool :=
  lseg.key == pseg.key &&
  !(idTruthy lseg.id && !strictEqOptId lseg.id pseg.id) &&
  !(idxTruthy lseg.index && !(lseg.index == pseg.index))

/-- Segment-wise prefix match of a listener path against a put path. -/
def lpathMatches : List PathSeg → List PathSeg → Bool
  | [], _ => true
  | _ :: _, [] => false
  | l :: lr, p :: pr => segMatch l p && lpathMatches lr pr

/-- Recognizer of the append branch class. -/
def isAppendKind : SegKind → Bool
  | .append => true
  | _ => false

/-- Whether a parsed path holds an append-marker segment in a non-final
position. -/
def midAppend : List PathSeg → Bool
  | [] => false
  | seg :: rest =>
    (!rest.isEmpty && isAppendKind (segKind false seg)) || midAppend rest

/-- The facts a `put` along a `putGetReady` region establishes, stated
of the put result `r` relative to the initial cursors `d`, `m`: the call
succeeded, the updated cursors are containers whose reference-marker and
`ttl` properties are untouched, and the `get` walk over the same
segments is fetch-free, ending on the stored value with the fresh leaf
metadata record under the metadata cursor. -/
def readyOut (opts : Config) (now : Int) (segs : List PathSeg)
    (d m V : Value) (r : PutRes) : Prop :=
  r.err = none ∧ r.data.isObjOrArr = true ∧ r.meta.isObjOrArr = true ∧
  r.data.getP opts.referencedPathAttr = d.getP opts.referencedPathAttr ∧
  r.meta.getP "ttl" = m.getP "ttl" ∧
  getPathOk opts now segs r.data r.meta = true ∧
  gWalkD opts segs r.data = V ∧
  resolveAcc r.meta (gAccs opts now segs r.data r.meta) = mkMeta opts now V

/-! ### Theorems -/

/-- Resolving a concatenated accessor chain composes. -/
theorem resolveAcc_append (xs ys : List Acc) :
    ∀ v : Value, resolveAcc v (xs ++ ys) = resolveAcc (resolveAcc v xs) ys := by
  induction xs with
  | nil => intro v; rfl
  | cons x xs ih => intro v; cases x <;> simp [resolveAcc, ih]

/-- `popResolve` is the identity step when the populate guard is off. -/
theorem popResolve_noMarker {inner : CacheState → Value → Option GetOut}
    {opts : Config} {c : Value} {st : CacheState} {fetches : List Value}
    (h : hasMarker opts c = false) :
    popResolve inner opts c st fetches = some (.ok c, st, fetches) := by
  unfold hasMarker at h
  simp [popResolve, h]

/-- Unfolding of a successful loose id lookup. -/
theorem gFindIx_eq_some {opts : Config} {a idv : Value} {ix : Nat}
    (h : gFindIx opts a idv = some ix) :
    a.findIdxLoose opts.idAttr idv = .ok (some ix) := by
  unfold gFindIx at h
  cases hf : a.findIdxLoose opts.idAttr idv with
  | error e => rw [hf] at h; cases h
  | ok o =>
    cases o with
    | none => rw [hf] at h; cases h
    | some j => rw [hf] at h; cases h; rfl

/-- The guard and expiry of `metaStepP` coincide with the cursor-value
step `mCurP` at the resolved chain. -/
theorem metaStepP_eq (mRoot : Value) (mchain : List Acc) (key : String)
    (now : Int) :
    metaStepP mRoot mchain key now =
      ⟨(mCurP (resolveAcc mRoot mchain) key now).guard,
       (mCurP (resolveAcc mRoot mchain) key now).expired,
       [.prop key]⟩ := rfl

/-- The guard and expiry of `metaStepIdx` coincide with `mCurIdx`. -/
theorem metaStepIdx_eq (mRoot : Value) (mchain : List Acc) (key : String)
    (i : Nat) (now : Int) :
    metaStepIdx mRoot mchain key i now =
      ⟨(mCurIdx (resolveAcc mRoot mchain) key i now).guard,
       (mCurIdx (resolveAcc mRoot mchain) key i now).expired,
       [.prop key, .idx i]⟩ := rfl

/-- A passing plain-branch guard implies the cursor itself is truthy. -/
theorem mCurP_guard_truthy {mcur : Value} {key : String} {now : Int}
    (h : (mCurP mcur key now).guard = true) : truthy mcur = true :=
  ((Bool.and_eq_true _ _).mp h).1

/-- A passing index-branch guard implies cursor and array are truthy. -/
theorem mCurIdx_guard_truthy {mcur : Value} {key : String} {i : Nat}
    {now : Int} (h : (mCurIdx mcur key i now).guard = true) :
    truthy mcur = true ∧
    truthy (cond (truthy mcur) ((mcur.getP key).toOption.getD .undef)
      .undef) = true := by
  have h1 := (Bool.and_eq_true _ _).mp h
  exact ⟨((Bool.and_eq_true _ _).mp h1.1).1, ((Bool.and_eq_true _ _).mp h1.1).2⟩

/-- Chain step of the plain branch under a passing guard. -/
theorem resolve_step_plain {st : CacheState} {mchain : List Acc}
    {key : String} {now : Int} {mcur : Value}
    (hmc : resolveAcc st.meta mchain = mcur)
    (hg : (mCurP mcur key now).guard = true) :
    resolveAcc st.meta (mchain ++ [Acc.prop key]) =
      (mCurP mcur key now).next := by
  rw [resolveAcc_append, hmc]
  simp only [resolveAcc, mCurP]
  rw [mCurP_guard_truthy hg, cond_true]

/-- Chain step of the index/id branches under a passing guard. -/
theorem resolve_step_idx {st : CacheState} {mchain : List Acc}
    {key : String} {i : Nat} {now : Int} {mcur : Value}
    (hmc : resolveAcc st.meta mchain = mcur)
    (hg : (mCurIdx mcur key i now).guard = true) :
    resolveAcc st.meta (mchain ++ [Acc.prop key, Acc.idx i]) =
      (mCurIdx mcur key i now).next := by
  obtain ⟨h1, h2⟩ := mCurIdx_guard_truthy hg
  rw [h1, cond_true] at h2
  rw [resolveAcc_append, hmc]
  simp only [resolveAcc, mCurIdx]
  rw [h1, cond_true, h2, cond_true]

/-- The characterization of `get`'s fetch-free walk: on a region
satisfying `getPathOk`, the walk of `init ++ tail` traverses `init`
without fetching, populating or touching the cache, moving the data
cursor to `gWalkD` and the metadata cursor along `gAccs`. -/
theorem getWalk_pre (inner : CacheState → Value → Option GetOut)
    (opts : Config) (now : Int) (fullPP : List PathSeg) :
    ∀ (init tail pre : List PathSeg) (dcur : Value) (mchain : List Acc)
      (mcur : Value) (st : CacheState) (fetches : List Value),
      resolveAcc st.meta mchain = mcur →
      getPathOk opts now init dcur mcur = true →
      getWalk inner opts now fullPP (init ++ tail) pre dcur mchain st
        fetches =
      getWalk inner opts now fullPP tail (pre ++ init)
        (gWalkD opts init dcur)
        (mchain ++ gAccs opts now init dcur mcur) st fetches := by
  intro init
  induction init with
  | nil =>
    intro tail pre dcur mchain mcur st fetches hmc h
    simp [gWalkD, gAccs]
  | cons seg rest ih =>
    intro tail pre dcur mchain mcur st fetches hmc h
    rw [List.cons_append]
    cases hk : segKind true seg with
    | append => simp [getPathOk, hk] at h
    | invalid => simp [getPathOk, hk] at h
    | plain =>
      cases hg : dcur.getP seg.key with
      | error e => simp [getPathOk, hk, hg] at h
      | ok c =>
        simp only [getPathOk, hk, hg] at h
        obtain ⟨h12, h34⟩ := (Bool.and_eq_true _ _).mp h
        obtain ⟨h1, h2⟩ := (Bool.and_eq_true _ _).mp h12
        obtain ⟨htr, hnm⟩ := (Bool.and_eq_true _ _).mp h1
        rw [Bool.not_eq_true'] at hnm h2
        simp only [getWalk, hk, hg, htr, Bool.not_true, Bool.false_eq_true,
          if_false, popResolve_noMarker hnm, metaStepP_eq, hmc]
        by_cases hguard : (mCurP mcur seg.key now).guard = true
        · have hexp : (mCurP mcur seg.key now).expired = false := by
            rw [hguard] at h2; simpa using h2
          rw [hguard] at h34
          rw [cond_true] at h34
          simp only [hguard, hexp, if_true, if_false, Bool.false_eq_true]
          rw [ih tail (pre ++ [seg]) c (mchain ++ [Acc.prop seg.key])
            (mCurP mcur seg.key now).next st fetches
            (resolve_step_plain hmc hguard) h34]
          simp [gWalkD, gAccs, hk, hg, hguard, List.append_assoc, Except.toOption]
        · rw [Bool.not_eq_true] at hguard
          rw [hguard] at h34
          rw [cond_false] at h34
          simp only [hguard, Bool.false_eq_true, if_false]
          rw [ih tail (pre ++ [seg]) c mchain mcur st fetches hmc h34]
          simp [gWalkD, gAccs, hk, hg, hguard, Except.toOption]
    | indexed i =>
      cases hg : dcur.getP seg.key with
      | error e => simp [getPathOk, hk, hg] at h
      | ok kv =>
        cases hgi : kv.getIdx i with
        | error e => simp [getPathOk, hk, hg, hgi] at h
        | ok c =>
          simp only [getPathOk, hk, hg, hgi] at h
          obtain ⟨h12, h34⟩ := (Bool.and_eq_true _ _).mp h
          obtain ⟨h1, h2⟩ := (Bool.and_eq_true _ _).mp h12
          obtain ⟨htr, hnm⟩ := (Bool.and_eq_true _ _).mp h1
          rw [Bool.not_eq_true'] at hnm h2
          simp only [getWalk, hk, hg, hgi, htr, Bool.not_true,
            Bool.false_eq_true, if_false, popResolve_noMarker hnm,
            metaStepIdx_eq, hmc]
          by_cases hguard : (mCurIdx mcur seg.key i now).guard = true
          · have hexp : (mCurIdx mcur seg.key i now).expired = false := by
              rw [hguard] at h2; simpa using h2
            rw [hguard] at h34
            rw [cond_true] at h34
            simp only [hguard, hexp, if_true, if_false, Bool.false_eq_true]
            rw [ih tail (pre ++ [seg]) c
              (mchain ++ [Acc.prop seg.key, Acc.idx i])
              (mCurIdx mcur seg.key i now).next st fetches
              (resolve_step_idx hmc hguard) h34]
            simp [gWalkD, gAccs, hk, hg, hgi, hguard, List.append_assoc, Except.toOption]
          · rw [Bool.not_eq_true] at hguard
            rw [hguard] at h34
            rw [cond_false] at h34
            simp only [hguard, Bool.false_eq_true, if_false]
            rw [ih tail (pre ++ [seg]) c mchain mcur st fetches hmc h34]
            simp [gWalkD, gAccs, hk, hg, hgi, hguard, Except.toOption]
    | ident idv =>
      cases hg : dcur.getP seg.key with
      | error e => simp [getPathOk, hk, hg] at h
      | ok a =>
        simp only [getPathOk, hk, hg] at h
        obtain ⟨htr, h⟩ := (Bool.and_eq_true _ _).mp h
        cases hfi : gFindIx opts a idv with
        | none => rw [hfi] at h; simp at h
        | some ix =>
          rw [hfi] at h
          obtain ⟨h1, h34⟩ := (Bool.and_eq_true _ _).mp h
          obtain ⟨hnm, h2⟩ := (Bool.and_eq_true _ _).mp h1
          rw [Bool.not_eq_true'] at hnm h2
          simp only [getWalk, hk, hg, htr, Bool.not_true, Bool.false_eq_true,
            if_false, gFindIx_eq_some hfi, popResolve_noMarker hnm,
            metaStepIdx_eq, hmc]
          by_cases hguard : (mCurIdx mcur seg.key ix now).guard = true
          · have hexp : (mCurIdx mcur seg.key ix now).expired = false := by
              rw [hguard] at h2; simpa using h2
            rw [hguard] at h34
            rw [cond_true] at h34
            simp only [hguard, hexp, if_true, if_false, Bool.false_eq_true]
            rw [ih tail (pre ++ [seg]) ((a.getIdx ix).toOption.getD .undef)
              (mchain ++ [Acc.prop seg.key, Acc.idx ix])
              (mCurIdx mcur seg.key ix now).next st fetches
              (resolve_step_idx hmc hguard) h34]
            simp [gWalkD, gAccs, hk, hg, hfi, hguard, List.append_assoc, Except.toOption]
          · rw [Bool.not_eq_true] at hguard
            rw [hguard] at h34
            rw [cond_false] at h34
            simp only [hguard, Bool.false_eq_true, if_false]
            rw [ih tail (pre ++ [seg]) ((a.getIdx ix).toOption.getD .undef)
              mchain mcur st fetches hmc h34]
            simp [gWalkD, gAccs, hk, hg, hfi, hguard, Except.toOption]

/-- In DO_NOT_CALL_BACKEND mode `fetchIfExpired` never fetches: it
rejects (with undefined) when the metadata exists and is expired, and
otherwise resolves the cache element as-is. -/
theorem fetchIfExpired_noBackend {opts : Config} {st : CacheState}
    {now : Int} {p c md : Value} (h : opts.callBackend = -1) :
    fetchIfExpired st opts now p c md =
      (if (truthy md && jsLt ((md.getP "ttl").toOption.getD .undef) now) =
          true
       then .error .rejectedUndefined else .ok c, st, []) := by
  simp only [fetchIfExpired, h]
  norm_num
  split <;> rfl

/-- Under a fetch-free `inner`, the populate step leaves state and fetch
list unchanged. -/
theorem popResolve_proj {inner : CacheState → Value → Option GetOut}
    {opts : Config} {c : Value} {st : CacheState} {fetches : List Value}
    {p : Except JsErr Value × CacheState × List Value}
    (hinner : ∀ st2 q out, inner st2 q = some out →
      out.2.1 = st2 ∧ out.2.2 = [])
    (hp : popResolve inner opts c st fetches = some p) :
    p.2.1 = st ∧ p.2.2 = fetches := by
  simp only [popResolve] at hp
  split at hp
  · cases hi : inner st ((c.getP opts.referencedPathAttr).toOption.getD
        .undef) with
    | none => rw [hi] at hp; cases hp
    | some out =>
      rw [hi] at hp
      obtain ⟨h1, h2⟩ := hinner _ _ _ hi
      rcases out with ⟨r, st2, fs2⟩
      simp only at hp h1 h2
      cases hp
      simp [h1, h2]
  · cases hp
    exact ⟨rfl, rfl⟩

/-- In DO_NOT_CALL_BACKEND mode the whole walk of `get` leaves the cache
untouched and performs no backend call, whatever the cache holds. -/
theorem getWalk_noBackend {inner : CacheState → Value → Option GetOut}
    {opts : Config} {now : Int} {fullPP : List PathSeg}
    (hcb : opts.callBackend = -1)
    (hinner : ∀ st2 q out, inner st2 q = some out →
      out.2.1 = st2 ∧ out.2.2 = []) :
    ∀ (rest pre : List PathSeg) (dcur : Value) (mchain : List Acc)
      (st : CacheState) (fetches : List Value) (out : GetOut),
      getWalk inner opts now fullPP rest pre dcur mchain st fetches =
        some out →
      out.2.1 = st ∧ out.2.2 = fetches := by
  intro rest
  induction rest with
  | nil =>
    intro pre dcur mchain st fetches out h
    simp only [getWalk, getFinal, fetchIfExpired_noBackend hcb] at h
    cases h
    simp
  | cons seg rest ih =>
    intro pre dcur mchain st fetches out h
    simp only [getWalk] at h
    cases hk : segKind true seg <;> simp only [hk] at h
    case append | invalid =>
      cases h; exact ⟨rfl, rfl⟩
    case plain =>
      cases hg : dcur.getP seg.key <;> simp only [hg] at h
      case error e => cases h; exact ⟨rfl, rfl⟩
      case ok c =>
        by_cases htr : truthy c = true
        · simp only [htr, Bool.not_true, Bool.false_eq_true, if_false] at h
          cases hpop : popResolve inner opts c st fetches <;>
            simp only [hpop] at h
          next => cases h
          next p =>
            rcases p with ⟨r, st1, f1⟩
            obtain ⟨hst, hfs⟩ := popResolve_proj hinner hpop
            simp only at hst hfs
            cases r with
            | error e => cases h; exact ⟨hst, hfs⟩
            | ok c1 =>
              by_cases hguard :
                  (metaStepP st1.meta mchain seg.key now).guard = true <;>
                simp only [hguard, Bool.false_eq_true, if_true, if_false]
                  at h
              · by_cases hexp :
                    (metaStepP st1.meta mchain seg.key now).expired =
                      true <;>
                  simp only [hexp, Bool.false_eq_true, if_true, if_false]
                    at h
                · rw [fetchIfExpired_noBackend hcb] at h
                  simp only [truthy, Bool.false_and, Bool.false_eq_true,
                    if_false] at h
                  obtain ⟨o1, o2⟩ := ih _ _ _ _ _ _ h
                  constructor
                  · exact o1.trans hst
                  · rw [o2]; simpa using hfs
                · obtain ⟨o1, o2⟩ := ih _ _ _ _ _ _ h
                  exact ⟨o1.trans hst, o2.trans hfs⟩
              · obtain ⟨o1, o2⟩ := ih _ _ _ _ _ _ h
                exact ⟨o1.trans hst, o2.trans hfs⟩
        · rw [Bool.not_eq_true] at htr
          simp only [htr, Bool.not_false, if_true, getFinal,
            fetchIfExpired_noBackend hcb] at h
          cases h
          simp
    case indexed i =>
      cases hg : dcur.getP seg.key <;> simp only [hg] at h
      case error e => cases h; exact ⟨rfl, rfl⟩
      case ok kv =>
        cases hgi : kv.getIdx i <;> simp only [hgi] at h
        case error e => cases h; exact ⟨rfl, rfl⟩
        case ok c =>
          by_cases htr : truthy c = true
          · simp only [htr, Bool.not_true, Bool.false_eq_true, if_false]
              at h
            cases hpop : popResolve inner opts c st fetches <;>
              simp only [hpop] at h
            next => cases h
            next p =>
              rcases p with ⟨r, st1, f1⟩
              obtain ⟨hst, hfs⟩ := popResolve_proj hinner hpop
              simp only at hst hfs
              cases r with
              | error e => cases h; exact ⟨hst, hfs⟩
              | ok c1 =>
                by_cases hguard :
                    (metaStepIdx st1.meta mchain seg.key i now).guard =
                      true <;>
                  simp only [hguard, Bool.false_eq_true, if_true, if_false]
                    at h
                · by_cases hexp :
                      (metaStepIdx st1.meta mchain seg.key i now).expired =
                        true <;>
                    simp only [hexp, Bool.false_eq_true, if_true, if_false]
                      at h
                  · rw [fetchIfExpired_noBackend hcb] at h
                    simp only [truthy, Bool.false_and, Bool.false_eq_true,
                      if_false] at h
                    obtain ⟨o1, o2⟩ := ih _ _ _ _ _ _ h
                    constructor
                    · exact o1.trans hst
                    · rw [o2]; simpa using hfs
                  · obtain ⟨o1, o2⟩ := ih _ _ _ _ _ _ h
                    exact ⟨o1.trans hst, o2.trans hfs⟩
                · obtain ⟨o1, o2⟩ := ih _ _ _ _ _ _ h
                  exact ⟨o1.trans hst, o2.trans hfs⟩
          · rw [Bool.not_eq_true] at htr
            simp only [htr, Bool.not_false, if_true, getFinal,
              fetchIfExpired_noBackend hcb] at h
            cases h
            simp
    case ident idv =>
      cases hg : dcur.getP seg.key <;> simp only [hg] at h
      case error e => cases h; exact ⟨rfl, rfl⟩
      case ok a =>
        by_cases htr : truthy a = true
        · simp only [htr, Bool.not_true, Bool.false_eq_true, if_false] at h
          cases hf : a.findIdxLoose opts.idAttr idv <;> simp only [hf] at h
          next e => cases h; exact ⟨rfl, rfl⟩
          next o =>
            cases o with
            | none =>
              simp only [getFinal, fetchIfExpired_noBackend hcb] at h
              cases h
              simp
            | some ix =>
              cases hpop : popResolve inner opts
                  ((a.getIdx ix).toOption.getD .undef) st fetches <;>
                simp only [hpop] at h
              next => cases h
              next p =>
                rcases p with ⟨r, st1, f1⟩
                obtain ⟨hst, hfs⟩ := popResolve_proj hinner hpop
                simp only at hst hfs
                cases r with
                | error e => cases h; exact ⟨hst, hfs⟩
                | ok c1 =>
                  by_cases hguard :
                      (metaStepIdx st1.meta mchain seg.key ix now).guard =
                        true <;>
                    simp only [hguard, Bool.false_eq_true, if_true,
                      if_false] at h
                  · by_cases hexp :
                        (metaStepIdx st1.meta mchain seg.key ix
                          now).expired = true <;>
                      simp only [hexp, Bool.false_eq_true, if_true,
                        if_false] at h
                    · rw [fetchIfExpired_noBackend hcb] at h
                      simp only [truthy, Bool.false_and,
                        Bool.false_eq_true, if_false] at h
                      obtain ⟨o1, o2⟩ := ih _ _ _ _ _ _ h
                      constructor
                      · exact o1.trans hst
                      · rw [o2]; simpa using hfs
                    · obtain ⟨o1, o2⟩ := ih _ _ _ _ _ _ h
                      exact ⟨o1.trans hst, o2.trans hfs⟩
                  · obtain ⟨o1, o2⟩ := ih _ _ _ _ _ _ h
                    exact ⟨o1.trans hst, o2.trans hfs⟩
        · rw [Bool.not_eq_true] at htr
          simp only [htr, Bool.not_false, if_true, getFinal,
            fetchIfExpired_noBackend hcb] at h
          cases h
          simp

/-- In DO_NOT_CALL_BACKEND mode `get` never invokes `fetchFunc` and never
mutates the cache, for every fuel, state, path and cache content —
including through recursive reference population. -/
theorem getFuel_noBackend :
    ∀ (fuel : Nat) (st : CacheState) (path : Value) (opts : Config)
      (now : Int) (out : GetOut), opts.callBackend = -1 →
      getFuel fuel st path opts now = some out →
      out.2.1 = st ∧ out.2.2 = [] := by
  intro fuel
  induction fuel with
  | zero => intro st path opts now out _ h; cases h
  | succ n ih =>
    intro st path opts now out hcb h
    simp only [getFuel] at h
    split at h
    · cases h; exact ⟨rfl, rfl⟩
    · split at h
      · cases h; exact ⟨rfl, rfl⟩
      · exact getWalk_noBackend hcb
          (fun st2 q out2 ho => ih st2 q opts now out2 hcb ho)
          _ _ _ _ _ _ _ h

/-- In DO_NOT_CALL_BACKEND mode, a final plain-key step onto a value
whose metadata guard passes with an expired TTL rejects the promise: the
walk's own expiry branch resolves `undefined` (no fetch), and the
closing `fetchIfExpired` sees the stepped-into expired metadata. -/
theorem getWalk_last_expired_noBackend
    {inner : CacheState → Value → Option GetOut} {opts : Config}
    {now : Int} {fullPP : List PathSeg} (hcb : opts.callBackend = -1)
    {seg : PathSeg} {pre : List PathSeg} {dcur : Value}
    {mchain : List Acc} {st : CacheState} {fetches : List Value}
    {mcur c : Value} (hmc : resolveAcc st.meta mchain = mcur)
    (hk : segKind true seg = .plain) (hg : dcur.getP seg.key = .ok c)
    (htr : truthy c = true) (hnm : hasMarker opts c = false)
    (hguard : (mCurP mcur seg.key now).guard = true)
    (hexp : (mCurP mcur seg.key now).expired = true) :
    getWalk inner opts now fullPP [seg] pre dcur mchain st fetches =
      some (.error .rejectedUndefined, st, fetches) := by
  simp only [getWalk, hk, hg, htr, Bool.not_true, Bool.false_eq_true,
    if_false, popResolve_noMarker hnm, metaStepP_eq, hmc, hguard, hexp,
    if_true]
  rw [fetchIfExpired_noBackend hcb]
  simp only [truthy, Bool.false_and, Bool.false_eq_true, if_false]
  simp only [getWalk, getFinal]
  rw [fetchIfExpired_noBackend hcb, resolve_step_plain hmc hguard]
  have h1 : truthy (mCurP mcur seg.key now).next = true :=
    ((Bool.and_eq_true _ _).mp hguard).2
  have h2 : jsLt (((mCurP mcur seg.key now).next.getP "ttl").toOption.getD
      .undef) now = true := hexp
  simp [h1, h2]

/-- A segment classified `plain` carries no id. -/
theorem segKind_plain_id {fg : Bool} {seg : PathSeg}
    (h : segKind fg seg = .plain) : seg.id = none := by
  unfold segKind at h
  repeat' split at h
  all_goals simp_all

/-- A segment classified `append` carries no id. -/
theorem segKind_append_id {fg : Bool} {seg : PathSeg}
    (h : segKind fg seg = .append) : seg.id = none := by
  unfold segKind at h
  repeat' split at h
  all_goals simp_all

/-- A segment classified `indexed` carries no id. -/
theorem segKind_indexed_id {fg : Bool} {seg : PathSeg} {i : Nat}
    (h : segKind fg seg = .indexed i) : seg.id = none := by
  unfold segKind at h
  repeat' split at h
  all_goals simp_all

/-- `putIdLeaf` on the value `undefined` throws the scalar-under-id error
before any write and fires no put event. -/
theorem putIdLeaf_undef (opts : Config) (now : Int) (ls : List Listener)
    (origPath : Value) (fullPP : List PathSeg) (key : String) (idv : Value)
    (fi : Nat) (a1 ma d2 m1 : Value) :
    putIdLeaf opts now ls origPath fullPP key idv fi .undef a1 ma d2 m1 =
      { err := some .scalarUnderId, data := d2, meta := m1 } := by
  unfold putIdLeaf
  simp [typeofVal]

/-- Helper for C10: a `put` of `undefined` whose parsed path ends in an
identity-addressed segment always returns an error and never reaches a
leaf write (no `firePutEvent` invocation): every branch of the walk
either throws on the way or arrives at the id leaf, where
`typeof undefined !== "object"` throws before the assignment. -/
theorem putRec_undef_idLast (opts : Config) (now : Int) (ls : List Listener)
    (origPath : Value) (fullPP : List PathSeg) :
    ∀ (segs : List PathSeg) (d m : Value), lastSegHasId segs = true →
      ((putRec opts now ls origPath fullPP segs .undef d m).err.isSome =
        true ∧
       (putRec opts now ls origPath fullPP segs .undef d m).fired = []) := by
  intro segs
  induction segs with
  | nil => intro d m h; simp [lastSegHasId] at h
  | cons seg rest ih =>
    intro d m h
    by_cases hre : rest = []
    · subst hre
      simp only [lastSegHasId] at h
      simp only [putRec, List.isEmpty_nil]
      cases hk : segKind false seg with
      | plain => rw [segKind_plain_id hk] at h; simp at h
      | append => rw [segKind_append_id hk] at h; simp at h
      | indexed i => rw [segKind_indexed_id hk] at h; simp at h
      | invalid => simp
      | ident idv =>
        cases hv : vivify2 d m seg.key (.arr [] []) with
        | error em => rcases em with ⟨e, d1, m1⟩; simp
        | ok q =>
          rcases q with ⟨a, ma, d1, m1⟩
          cases hl : idLocate a opts.idAttr idv with
          | error e => simp [hl]
          | ok q2 =>
            rcases q2 with ⟨fi, a1, pushed⟩
            simp [hl, putIdLeaf_undef]
    · have hrest : lastSegHasId rest = true := by
        cases rest with
        | nil => exact absurd rfl hre
        | cons s2 r2 => simpa [lastSegHasId] using h
      have hremp : rest.isEmpty = false := by
        cases rest with
        | nil => exact absurd rfl hre
        | cons s2 r2 => rfl
      simp only [putRec, hremp]
      cases hk : segKind false seg with
      | invalid => simp
      | plain =>
        cases hv : vivify2 d m seg.key (.obj []) with
        | error em => rcases em with ⟨e, d1, m1⟩; simp
        | ok q =>
          rcases q with ⟨c, mc, d1, m1⟩
          simpa using ih c mc hrest
      | append =>
        cases hv : vivify2 d m seg.key (.arr [] []) with
        | error em => rcases em with ⟨e, d1, m1⟩; simp
        | ok q => rcases q with ⟨a, ma, d1, m1⟩; simp
      | indexed i =>
        cases hv : vivify2 d m seg.key (.arr [] []) with
        | error em => rcases em with ⟨e, d1, m1⟩; simp
        | ok q =>
          rcases q with ⟨a, ma, d1, m1⟩
          cases hvi : vivifyIdx a i (.obj []) with
          | error e => simp [hvi]
          | ok q2 =>
            rcases q2 with ⟨c, aPre⟩
            cases hvm : vivifyIdx ma i (.obj []) with
            | error e => simp [hvi, hvm]
            | ok q3 =>
              rcases q3 with ⟨mc, maPre⟩
              simpa [hvi, hvm] using ih c mc hrest
      | ident idv =>
        cases hv : vivify2 d m seg.key (.arr [] []) with
        | error em => rcases em with ⟨e, d1, m1⟩; simp
        | ok q =>
          rcases q with ⟨a, ma, d1, m1⟩
          cases hl : idLocate a opts.idAttr idv with
          | error e => simp [hl]
          | ok q2 =>
            rcases q2 with ⟨fi, a1, pushed⟩
            cases hvm : vivifyIdx ma fi (.obj [(opts.idAttr, idv)]) with
            | error e => simp [hl, hvm]
            | ok q3 =>
              rcases q3 with ⟨mc, maPre⟩
              simpa [hl, hvm] using
                ih ((a1.getIdx fi).toOption.getD .undef) mc hrest

/-- C10 (confirmed): for every cache state and every path whose final
segment is identity-addressed, `delete(path)` — implemented as
`put(path, undefined, -1)` — throws synchronously (either the
"cannot PUT a scalar value under an ID" error at the leaf, or an earlier
walk error), and no leaf write ever happens (`fired = []`), so the stored
element is never set to `undefined`; only plain-key and index-addressed
final segments perform the documented set-to-undefined. -/
theorem c10_delete_id_throws (st : CacheState) (path : Value) (now : Int)
    (pp : List PathSeg) (hp : parsePath path = .ok pp)
    (hlast : lastSegHasId pp = true) :
    (deletePC st path now).err.isSome = true ∧
    (deletePC st path now).fired = [] := by
  unfold deletePC putO
  rw [hp]
  exact putRec_undef_idLast st.cfg now st.listeners path pp pp st.data
    st.meta hlast

/-- Witness for C10 at the concrete cache `stIdFix` and path "posts/7". -/
theorem c10_delete_id_throws_witness :
    (deletePC stIdFix (.str "posts/7") 2000).err.isSome = true ∧
    (deletePC stIdFix (.str "posts/7") 2000).fired = [] :=
  c10_delete_id_throws stIdFix (.str "posts/7") 2000
    [⟨"posts", some (.num 7), none, false⟩] (by rfl) (by rfl)

/-- C4 (corrected): in DO_NOT_CALL_BACKEND mode, (1) `get` never invokes
the injected fetchFunc and never mutates the cache — for every fuel,
state, path, options and cache content, including through recursive
reference population; and (2) the promise rejects when the walked-to
value's metadata exists with a TTL in the past (shown here for a
plain-key final segment reached over any fetch-free prefix).  The
claim's further assertion that an *absent* value also rejects is false:
it resolves to `undefined` (see the counterexample). -/
theorem c4_noBackend_behavior :
    (∀ (fuel : Nat) (st : CacheState) (path : Value) (opts : Config)
       (now : Int) (out : GetOut), opts.callBackend = -1 →
       getFuel fuel st path opts now = some out →
       out.2.1 = st ∧ out.2.2 = []) ∧
    (∀ (fuel : Nat) (st : CacheState) (path : Value) (opts : Config)
       (now : Int) (init : List PathSeg) (seg : PathSeg) (c : Value),
       opts.callBackend = -1 → opts.fetchFunc.isSome = true →
       parsePath path = .ok (init ++ [seg]) →
       getPathOk opts now init st.data st.meta = true →
       segKind true seg = .plain →
       (gWalkD opts init st.data).getP seg.key = .ok c →
       truthy c = true → hasMarker opts c = false →
       (mCurP (resolveAcc st.meta (gAccs opts now init st.data st.meta))
         seg.key now).guard = true →
       (mCurP (resolveAcc st.meta (gAccs opts now init st.data st.meta))
         seg.key now).expired = true →
       getFuel (fuel + 1) st path opts now =
         some (.error .rejectedUndefined, st, [])) := by
  constructor
  · exact fun fuel st path opts now out hcb h =>
      getFuel_noBackend fuel st path opts now out hcb h
  · intro fuel st path opts now init seg c hcb hff hp hok hk hg htr hnm
      hguard hexp
    have hnN : opts.fetchFunc.isNone = false := by
      cases hf : opts.fetchFunc
      · rw [hf] at hff; cases hff
      · rfl
    simp only [getFuel, hnN, Bool.false_eq_true, if_false, hp]
    rw [getWalk_pre (fun st2 p => getFuel fuel st2 p opts now) opts now
      (init ++ [seg]) init [seg] [] st.data [] st.meta st [] rfl hok]
    rw [getWalk_last_expired_noBackend hcb (by simp) hk hg htr hnm hguard
      hexp]

/-- Witness for C4: part 1 at the cache holding 0 under "k" (no-backend
`get` resolves `undefined`ness without fetching), part 2 at the cache
holding "v" under "k" read at t = 99999, past its TTL of 61000. -/
theorem c4_noBackend_behavior_witness :
    ((getFuel 2 stFalsy (.str "k") cfgNB 1000 =
        some (.ok (.num 0), stFalsy, [])) →
      ((.ok (.num 0), stFalsy, ([] : List Value)) : GetOut).2.1 = stFalsy ∧
      ((.ok (.num 0), stFalsy, ([] : List Value)) : GetOut).2.2 = []) ∧
    getFuel 2 stKV (.str "k") cfgNB 99999 =
      some (.error .rejectedUndefined, stKV, []) := by
  constructor
  · exact fun h => c4_noBackend_behavior.1 2 stFalsy (.str "k") cfgNB 1000
      (.ok (.num 0), stFalsy, []) rfl h
  · exact c4_noBackend_behavior.2 1 stKV (.str "k") cfgNB 99999 []
      ⟨"k", none, none, false⟩ (.str "v") rfl rfl rfl rfl rfl rfl rfl rfl
      rfl rfl

/-- C1, counterexample: with the falsy value 0, `put("k", 0)` succeeds but
the immediately following `get("k")` invokes the injected fetchFunc (the
walk finds the cached 0 falsy, `!cacheElem` breaks and the final
`fetchIfExpired` fetches) and resolves to the backend's value instead of
0.  This falsifies the claim's "the injected fetchFunc is not invoked
during that get (including when V is a falsy value such as 0…)". -/
theorem c1_falsy_roundtrip_cex :
    (putD stEx (.str "k") (.num 0) 1000).err = none ∧
    (getFuel 2 stFalsy (.str "k") cfgEx 1000).map
      (fun r => (r.1, r.2.2)) =
      some (.ok (.str "fromServer"), [.arr [.str "k"] []]) := by
  exact ⟨rfl, rfl⟩

/-- C3, counterexample: on the empty cache, `put("wrongId/99", {_id: 66})`
throws the ID-mismatch error, but the cache is NOT left as it was: the
data tree now holds the synthesized stub element with the path's id under
"wrongId" (the stub is pushed before the mismatch check throws), so an
element with that id exists afterwards — falsifying "the cache data and
metadata trees are left exactly as they were before the call". -/
theorem c3_mismatch_mutates_cex :
    (putD stEx (.str "wrongId/99")
        (.obj [("_id", .num 66), ("text", .str "w")]) 1000).err =
      some .idMismatch ∧
    (putD stEx (.str "wrongId/99")
        (.obj [("_id", .num 66), ("text", .str "w")]) 1000).data =
      .obj [("wrongId", .arr [.obj [("_id", .num 99)]] [])] ∧
    (putD stEx (.str "wrongId/99")
        (.obj [("_id", .num 66), ("text", .str "w")]) 1000).data ≠
      stEx.data := by
  refine ⟨rfl, rfl, ?_⟩
  decide

/-- C4, counterexample: in no-backend mode a `get` of an absent value does
NOT reject — it resolves to `undefined` (the DO_NOT_CALL_BACKEND branch
rejects only when metadata exists and is expired; for an absent value it
resolves the undefined cacheElem).  This falsifies "the returned promise
rejects whenever the value at that path is absent". -/
theorem c4_absent_resolves_cex :
    (getFuel 2 stEx (.str "nothing") cfgNB 1000).map
      (fun r => (r.1, r.2.2)) = some (.ok .undef, []) := by
  exact rfl

/-- C6, counterexample: on the empty cache (no array exists under "arr"),
`put("arr[]", "one")` does not throw — it creates the array and appends,
falsifying "the call throws … whenever no array already exists under key
at that tree position".  (The repository's own test "Append to array"
exercises exactly this auto-creation.) -/
theorem c6_append_creates_cex :
    (putD stEx (.str "arr[]") (.str "one") 1000).err = none ∧
    (putD stEx (.str "arr[]") (.str "one") 1000).data =
      .obj [("arr", .arr [.str "one"] [])] := by
  exact ⟨rfl, rfl⟩

/-- C8, counterexample: with a non-exact listener registered for the
two-segment path "one.two", the shorter put `put("one", "v")` does not
"simply not notify and still succeed": `firePutEvent` reads
`parsedPath[1].key` past the end of the parsed path and throws a
TypeError out of `put` (after the value was already stored), and the
listener is indeed not invoked. -/
theorem c8_short_put_throws_cex :
    (putD stSubFix (.str "one") (.str "v") 1000).err = some .typeError ∧
    (putD stSubFix (.str "one") (.str "v") 1000).notified = [] ∧
    (putD stSubFix (.str "one") (.str "v") 1000).data =
      .obj [("one", .str "v")] := by
  exact ⟨rfl, rfl, rfl⟩

/-- C2, counterexample: the cache stores a comment whose `createdBy` field
is the reference marker; `populate` applied (through the direct reference
`getCacheData()` exposes) resolves the marker and assigns the target into
the structure in place, so afterwards the cache's stored copy holds the
resolved user — not the original marker.  This falsifies "the structure
passed in (and hence the cache's stored copy …) still contains the
original reference marker after populate resolves". -/
theorem c2_populate_mutates_cex :
    resolveAcc stPopFix.data [.prop "comment", .prop "createdBy"] =
      markerEx ∧
    (populateAt 5 stPopFix [.prop "comment"] "createdBy" cfgEx 2000).map
      (fun r =>
        (resolveAcc r.2.1.data [.prop "comment", .prop "createdBy"],
         r.2.2)) = some (userEx, []) ∧
    userEx ≠ markerEx := by
  refine ⟨rfl, rfl, ?_⟩
  decide

/-- C7, code-bug witness: "x" is stored under "arr[0]" with TTL 61000;
read at now = 99999 the element is expired (61000 < 99999), yet `getSync`
returns the stale value both with `throwWhenExpired = false` and with
`throwWhenExpired = true` — the source checks `metadataElem[key].ttl`
(the ttl of the metadata array, which is undefined) instead of
`metadataElem[key][index].ttl`.  The same slip affects id-addressed
elements. -/
theorem c7_getSync_stale_index :
    jsLt (resolveAcc stArrFix.meta [.prop "arr", .idx 0, .prop "ttl"])
      99999 = true ∧
    getSyncFuel 2 stArrFix (.str "arr[0]") cfgEx 99999 false =
      some (.ok (.str "x")) ∧
    getSyncFuel 2 stArrFix (.str "arr[0]") cfgEx 99999 true =
      some (.ok (.str "x")) ∧
    getSyncFuel 2 stIdFix (.str "posts/7") cfgEx 99999 false =
      some (.ok (.obj [("_id", .num 7), ("t", .str "y")])) := by
  exact ⟨rfl, rfl, rfl, rfl⟩

/-- C9, code-bug witness: `path2rest` reads `const el = [i]` (the loop
index wrapped in an array) instead of `path[i]`, so the result ignores
the path's contents — `path2rest(["posts"])` yields "/0/0" rather than
"/posts", and an index-addressed segment does not throw (the string
branch with the throw is unreachable). -/
theorem c9_path2rest_eval :
    path2rest (.arr [.str "posts"] []) = .ok "/0/0" ∧
    path2rest (.arr [.str "arr[3]", .str "b"] []) = .ok "/0/0/0/1" ∧
    ("/0/0" : String) ≠ "/posts" := by
  refine ⟨rfl, rfl, ?_⟩
  decide

/-- Writing a field and reading it back. -/
theorem objGet_objSet_self (fs : List (String × Value)) (k : String)
    (v : Value) : objGet (objSet fs k v) k = some v := by
  induction fs with
  | nil => simp [objSet, objGet]
  | cons p rest ih =>
    obtain ⟨a, w⟩ := p
    by_cases h : a = k
    · subst h; simp [objSet, objGet]
    · simp [objSet, objGet, h, ih]

/-- Writing a field leaves the other fields unchanged. -/
theorem objGet_objSet_ne (fs : List (String × Value)) {k k' : String}
    (hne : k' ≠ k) (v : Value) :
    objGet (objSet fs k v) k' = objGet fs k' := by
  induction fs with
  | nil => simp [objSet, objGet, Ne.symm hne]
  | cons p rest ih =>
    obtain ⟨a, w⟩ := p
    by_cases h : a = k
    · subst h; simp [objSet, objGet, Ne.symm hne]
    · simp [objSet, objGet, h, ih]

/-- Property reads on containers never throw. -/
theorem getP_ok_of_container {d : Value} (h : d.isObjOrArr = true)
    (k : String) :
    d.getP k = .ok ((d.getP k).toOption.getD .undef) := by
  cases d <;> simp [Value.isObjOrArr] at h <;>
    simp [Value.getP, Except.toOption]

/-- Property writes on containers never throw and land on `forceSetP`. -/
theorem setP_ok_of_container {d : Value} (h : d.isObjOrArr = true)
    (k : String) (v : Value) : d.setP k v = .ok (forceSetP d k v) := by
  cases d with
  | obj fs => rfl
  | arr es ps => rfl
  | undef => exact absurd h (by simp [Value.isObjOrArr])
  | null => exact absurd h (by simp [Value.isObjOrArr])
  | bool b => exact absurd h (by simp [Value.isObjOrArr])
  | num n => exact absurd h (by simp [Value.isObjOrArr])
  | str s => exact absurd h (by simp [Value.isObjOrArr])

/-- A property write preserves container-ness. -/
theorem forceSetP_container {d : Value} (h : d.isObjOrArr = true)
    (k : String) (v : Value) : (forceSetP d k v).isObjOrArr = true := by
  cases d with
  | obj fs => rfl
  | arr es ps =>
    simp only [forceSetP, Value.setP]
    cases strToNat? k <;> rfl
  | undef => exact absurd h (by simp [Value.isObjOrArr])
  | null => exact absurd h (by simp [Value.isObjOrArr])
  | bool b => exact absurd h (by simp [Value.isObjOrArr])
  | num n => exact absurd h (by simp [Value.isObjOrArr])
  | str s => exact absurd h (by simp [Value.isObjOrArr])

/-- Containers are truthy. -/
theorem truthy_of_container {d : Value} (h : d.isObjOrArr = true) :
    truthy d = true := by
  cases d <;> simp [Value.isObjOrArr] at h <;> rfl

/-- Reading back a written non-numeric property. -/
theorem getP_forceSetP_self {d : Value} (h : d.isObjOrArr = true)
    {k : String} (hk : (strToNat? k).isNone = true) (v : Value) :
    (forceSetP d k v).getP k = .ok v := by
  cases d with
  | obj fs => simp [forceSetP, Value.setP, Except.toOption, Value.getP,
      objGet_objSet_self]
  | arr es ps =>
    have hkn : strToNat? k = none := by
      cases hx : strToNat? k
      · rfl
      · rw [hx] at hk; cases hk
    simp [forceSetP, Value.setP, hkn, Except.toOption, Value.getP,
      objGet_objSet_self]
  | undef => exact absurd h (by simp [Value.isObjOrArr])
  | null => exact absurd h (by simp [Value.isObjOrArr])
  | bool b => exact absurd h (by simp [Value.isObjOrArr])
  | num n => exact absurd h (by simp [Value.isObjOrArr])
  | str s => exact absurd h (by simp [Value.isObjOrArr])

/-- Writing a non-numeric property leaves every other property read
unchanged. -/
theorem getP_forceSetP_ne {d : Value} (h : d.isObjOrArr = true)
    {k k' : String} (hk : (strToNat? k).isNone = true) (hne : k' ≠ k)
    (v : Value) : (forceSetP d k v).getP k' = d.getP k' := by
  cases d with
  | obj fs => simp [forceSetP, Value.setP, Except.toOption, Value.getP,
      objGet_objSet_ne _ hne]
  | arr es ps =>
    have hkn : strToNat? k = none := by
      cases hx : strToNat? k
      · rfl
      · rw [hx] at hk; cases hk
    simp only [forceSetP, Value.setP, hkn, Except.toOption, Option.getD_some]
    cases hx : strToNat? k' <;>
      simp [Value.getP, hx, objGet_objSet_ne _ hne]
  | undef => exact absurd h (by simp [Value.isObjOrArr])
  | null => exact absurd h (by simp [Value.isObjOrArr])
  | bool b => exact absurd h (by simp [Value.isObjOrArr])
  | num n => exact absurd h (by simp [Value.isObjOrArr])
  | str s => exact absurd h (by simp [Value.isObjOrArr])

/-- On a container the vivification idiom never throws and produces the
`vivC`/`vivD` pair. -/
theorem vivifyP_eq {d : Value} (h : d.isObjOrArr = true) (k : String) :
    vivifyP d k (.obj []) = .ok (vivC d k, vivD d k) := by
  obtain ⟨c0, hc⟩ : ∃ c0, d.getP k = .ok c0 :=
    ⟨_, getP_ok_of_container h k⟩
  have hc0 : (d.getP k).toOption.getD .undef = c0 := by
    rw [hc]; rfl
  unfold vivifyP vivC vivD
  rw [hc0, hc]
  cases ht : truthy c0
  · simp [bind, Except.bind, ht, setP_ok_of_container h]
  · simp [bind, Except.bind, ht]

/-- Two-tree vivification on containers. -/
theorem vivify2_eq {d m : Value} (hd : d.isObjOrArr = true)
    (hm : m.isObjOrArr = true) (k : String) :
    vivify2 d m k (.obj []) =
      .ok (vivC d k, vivC m k, vivD d k, vivD m k) := by
  unfold vivify2
  rw [vivifyP_eq hd, vivifyP_eq hm]

/-- The vivified container is still a container. -/
theorem vivD_container {d : Value} (h : d.isObjOrArr = true)
    (k : String) : (vivD d k).isObjOrArr = true := by
  unfold vivD
  cases truthy ((d.getP k).toOption.getD .undef)
  · exact forceSetP_container h k _
  · exact h

/-- Reading the vivified key off the vivified container yields the
vivified child. -/
theorem getP_vivD_self {d : Value} (h : d.isObjOrArr = true)
    {k : String} (hk : (strToNat? k).isNone = true) :
    (vivD d k).getP k = .ok (vivC d k) := by
  obtain ⟨c0, hc⟩ : ∃ c0, d.getP k = .ok c0 :=
    ⟨_, getP_ok_of_container h k⟩
  have hc0 : (d.getP k).toOption.getD .undef = c0 := by
    rw [hc]; rfl
  unfold vivD vivC
  rw [hc0]
  cases ht : truthy c0
  · simp only [ht, cond_false]
    exact getP_forceSetP_self h hk _
  · simp only [ht, cond_true]
    exact hc

/-- Vivification of one key leaves the other property reads unchanged. -/
theorem getP_vivD_ne {d : Value} (h : d.isObjOrArr = true)
    {k k' : String} (hk : (strToNat? k).isNone = true) (hne : k' ≠ k) :
    (vivD d k).getP k' = d.getP k' := by
  unfold vivD
  cases truthy ((d.getP k).toOption.getD .undef)
  · simp only [cond_false]
    exact getP_forceSetP_ne h hk hne _
  · simp only [cond_true]

/-- On a container child the write-back is a plain property write. -/
theorem installP_of_container {c : Value} (h : c.isObjOrArr = true)
    (container : Value) (k : String) (v : Value) :
    installP c container k v = forceSetP container k v := by
  unfold installP
  rw [h]
  rfl

/-- The `ttl` property of a fresh metadata record. -/
theorem mkMeta_ttl (opts : Config) (now : Int) (V : Value) :
    ((mkMeta opts now V).getP "ttl").toOption.getD .undef =
      .num (now + opts.ttl) := rfl

/-- A fresh metadata record is not expired at its own write time when
the configured TTL is non-negative. -/
theorem jsLt_fresh {opts : Config} {now : Int} (h : 0 ≤ opts.ttl) :
    jsLt (.num (now + opts.ttl)) now = false := by
  simp only [jsLt, toNumberV, Option.any_some, decide_eq_false_iff_not,
    not_lt]
  omega

/-- A `putGetReady` region starts at containers whose reference-marker
property is not set. -/
theorem putGetReady_head {opts : Config} {now : Int} :
    ∀ {segs : List PathSeg} {d m : Value},
    putGetReady opts now segs d m = true →
    d.isObjOrArr = true ∧ m.isObjOrArr = true ∧
      hasMarker opts d = false := by
  intro segs d m h
  cases segs with
  | nil => simp [putGetReady] at h
  | cons s r =>
    simp only [putGetReady, Bool.and_eq_true, Bool.not_eq_true'] at h
    exact ⟨h.1.1.1.2, h.1.1.2, h.1.2⟩

/-- The plain-segment conditions select `put`'s and `get`'s first
branch. -/
theorem segKind_plain_of {seg : PathSeg} (hk : (seg.key != "") = true)
    (hi : (seg.index == none) = true) (hd : (seg.id == none) = true)
    (ha : seg.appendArray = false) (fg : Bool) :
    segKind fg seg = .plain := by
  unfold segKind
  simp [hk, hi, hd, ha]

/-- The put-walk characterization: a `put` of a truthy, marker-free
value over a `putGetReady` region succeeds and establishes all the
conditions of a fetch-free `get` of the same path (`readyOut`). -/
theorem putRec_ready (opts : Config) (now : Int) (orig : Value)
    (fullPP : List PathSeg) (V : Value) (hmg : opts.merge = false)
    (htv : truthy V = true) (hmkV : hasMarker opts V = false)
    (httl : 0 ≤ opts.ttl) :
    ∀ (segs : List PathSeg) (d m : Value),
      putGetReady opts now segs d m = true →
      readyOut opts now segs d m V
        (putRec opts now [] orig fullPP segs V d m) := by
  intro segs
  induction segs with
  | nil => intro d m h; simp [putGetReady] at h
  | cons seg rest ih =>
    intro d m h
    obtain ⟨hdo, hmo, hmkd⟩ := putGetReady_head h
    simp only [putGetReady, Bool.and_eq_true] at h
    obtain ⟨⟨⟨⟨hA, _⟩, _⟩, _⟩, hE⟩ := h
    simp only [plainKeySeg, Bool.and_eq_true] at hA
    obtain ⟨⟨⟨⟨⟨⟨h1, h2⟩, h3⟩, h4⟩, h5⟩, h6⟩, h7⟩ := hA
    rw [Bool.not_eq_true'] at h4
    have h6' : ("ttl" : String) ≠ seg.key := Ne.symm (by simpa using h6)
    have h7' : opts.referencedPathAttr ≠ seg.key :=
      Ne.symm (by simpa using h7)
    by_cases hre : rest = []
    · subst hre
      have hput : putRec opts now [] orig fullPP [seg] V d m =
          { err := none, data := forceSetP d seg.key V,
            meta := forceSetP m seg.key (mkMeta opts now V),
            fired := [(orig, V)], notified := [] } := by
        simp only [putRec, segKind_plain_of h1 h2 h3 h4, List.isEmpty_nil,
          if_true, putPlainLeaf, hmg, Bool.false_and, Bool.false_eq_true,
          if_false, setP_ok_of_container hdo, setP_ok_of_container hmo,
          fireEvents]
      rw [readyOut, hput]
      have hmt : truthy (forceSetP m seg.key (mkMeta opts now V)) = true :=
        truthy_of_container (forceSetP_container hmo _ _)
      have hmk2 : ((forceSetP m seg.key (mkMeta opts now V)).getP
          seg.key).toOption.getD .undef = mkMeta opts now V := by
        rw [getP_forceSetP_self hmo h5]; rfl
      have hs : mCurP (forceSetP m seg.key (mkMeta opts now V)) seg.key
          now = ⟨true, false, mkMeta opts now V⟩ := by
        simp [mCurP, hmt, hmk2, mkMeta_ttl, jsLt_fresh httl]
        rfl
      refine ⟨rfl, forceSetP_container hdo _ _, forceSetP_container hmo _ _,
        getP_forceSetP_ne hdo h5 h7' _, getP_forceSetP_ne hmo h5 h6' _,
        ?_, ?_, ?_⟩
      · simp only [getPathOk, segKind_plain_of h1 h2 h3 h4,
          getP_forceSetP_self hdo h5, hs]
        simp [htv, hmkV]
      · simp only [gWalkD, segKind_plain_of h1 h2 h3 h4,
          getP_forceSetP_self hdo h5, Except.toOption, Option.getD_some]
      · simp only [gAccs, segKind_plain_of h1 h2 h3 h4, hs, cond_true,
          List.append_nil]
        simp only [resolveAcc, getP_forceSetP_self hmo h5]
        rfl
    · have hreE : rest.isEmpty = false := by
        cases rest with
        | nil => exact absurd rfl hre
        | cons a b => rfl
      rw [hreE] at hE
      simp only [Bool.false_or, Bool.and_eq_true, Bool.not_eq_true'] at hE
      obtain ⟨httlpre, hready⟩ := hE
      obtain ⟨hco, hmco, hcmk⟩ := putGetReady_head hready
      obtain ⟨e1, e2, e3, e4, e5, e6, e7, e8⟩ := ih _ _ hready
      have hput : putRec opts now [] orig fullPP (seg :: rest) V d m =
          { putRec opts now [] orig fullPP rest V (vivC d seg.key)
              (vivC m seg.key) with
            data := forceSetP (vivD d seg.key) seg.key
              (putRec opts now [] orig fullPP rest V (vivC d seg.key)
                (vivC m seg.key)).data,
            meta := forceSetP (vivD m seg.key) seg.key
              (putRec opts now [] orig fullPP rest V (vivC d seg.key)
                (vivC m seg.key)).meta } := by
        simp only [putRec, segKind_plain_of h1 h2 h3 h4, hreE,
          Bool.false_eq_true, if_false, vivify2_eq hdo hmo,
          installP_of_container hco, installP_of_container hmco]
      rw [readyOut, hput]
      have hndo : (vivD d seg.key).isObjOrArr = true := vivD_container hdo _
      have hnmo : (vivD m seg.key).isObjOrArr = true := vivD_container hmo _
      have hnmt : truthy (forceSetP (vivD m seg.key) seg.key
          (putRec opts now [] orig fullPP rest V (vivC d seg.key)
            (vivC m seg.key)).meta) = true :=
        truthy_of_container (forceSetP_container hnmo _ _)
      have hnmk : ((forceSetP (vivD m seg.key) seg.key
          (putRec opts now [] orig fullPP rest V (vivC d seg.key)
            (vivC m seg.key)).meta).getP seg.key).toOption.getD .undef =
          (putRec opts now [] orig fullPP rest V (vivC d seg.key)
            (vivC m seg.key)).meta := by
        rw [getP_forceSetP_self hnmo h5]; rfl
      have hrmt : truthy (putRec opts now [] orig fullPP rest V
          (vivC d seg.key) (vivC m seg.key)).meta = true :=
        truthy_of_container e3
      have hs : mCurP (forceSetP (vivD m seg.key) seg.key
          (putRec opts now [] orig fullPP rest V (vivC d seg.key)
            (vivC m seg.key)).meta) seg.key now =
          ⟨true, false, (putRec opts now [] orig fullPP rest V
            (vivC d seg.key) (vivC m seg.key)).meta⟩ := by
        simp only [mCurP, hnmt, cond_true, hnmk, hrmt]
        rw [e5, httlpre]
        simp
      have hmarker : hasMarker opts (putRec opts now [] orig fullPP rest V
          (vivC d seg.key) (vivC m seg.key)).data = false := by
        unfold hasMarker at hcmk ⊢
        rw [e4]
        exact hcmk
      refine ⟨e1, forceSetP_container hndo _ _, forceSetP_container hnmo _ _,
        ?_, ?_, ?_, ?_, ?_⟩
      · rw [getP_forceSetP_ne hndo h5 h7' _, getP_vivD_ne hdo h5 h7']
      · rw [getP_forceSetP_ne hnmo h5 h6' _, getP_vivD_ne hmo h5 h6']
      · simp only [getPathOk, segKind_plain_of h1 h2 h3 h4,
          getP_forceSetP_self hndo h5, hs]
        simp [truthy_of_container e2, hmarker, e6]
      · simp only [gWalkD, segKind_plain_of h1 h2 h3 h4,
          getP_forceSetP_self hndo h5, Except.toOption, Option.getD_some]
        exact e7
      · simp only [gAccs, segKind_plain_of h1 h2 h3 h4,
          getP_forceSetP_self hndo h5, hs, cond_true, Except.toOption,
          Option.getD_some]
        rw [resolveAcc_append]
        simp only [resolveAcc, getP_forceSetP_self hnmo h5,
          Except.toOption, Option.getD_some]
        exact e8

/-- C1 (corrected): the put/get round trip holds for truthy marker-free
values over plain-key paths whose region the put can traverse
(`putGetReady`): `put(P, V)` succeeds, and an immediate `get(P)` under
the same default-mode options resolves to a value deep-equal to V,
leaves the cache untouched and never invokes the injected fetchFunc.
The claim's unrestricted version is false for falsy values, which the
`get` re-fetches (see the counterexample). -/
theorem c1_roundtrip_amended (st : CacheState) (path V : Value)
    (opts : Config) (now : Int) (fuel : Nat) (pp : List PathSeg)
    (hf : opts.fetchFunc.isSome = true) (hcb : opts.callBackend = 0)
    (hmg : opts.merge = false) (httl : 0 ≤ opts.ttl)
    (htv : truthy V = true) (hmkV : hasMarker opts V = false)
    (hls : st.listeners = []) (hp : parsePath path = .ok pp)
    (hready : putGetReady opts now pp st.data st.meta = true) :
    (putO st path V opts now).err = none ∧
    getFuel (fuel + 1) (applyPut st (putO st path V opts now)) path opts
        now =
      some (.ok V, applyPut st (putO st path V opts now), []) := by
  have hput : putO st path V opts now =
      putRec opts now [] path pp pp V st.data st.meta := by
    simp only [putO, hp, hls]
  obtain ⟨e1, e2, e3, e4, e5, e6, e7, e8⟩ :=
    putRec_ready opts now path pp V hmg htv hmkV httl pp st.data st.meta
      hready
  have hgd : (applyPut st (putO st path V opts now)).data =
      (putRec opts now [] path pp pp V st.data st.meta).data := by
    rw [hput]; rfl
  have hgm : (applyPut st (putO st path V opts now)).meta =
      (putRec opts now [] path pp pp V st.data st.meta).meta := by
    rw [hput]; rfl
  refine ⟨by rw [hput]; exact e1, ?_⟩
  have hnN : opts.fetchFunc.isNone = false := by
    cases hx : opts.fetchFunc
    · rw [hx] at hf; cases hf
    · rfl
  simp only [getFuel, hnN, Bool.false_eq_true, if_false, hp]
  have hok : getPathOk opts now pp
      (applyPut st (putO st path V opts now)).data
      (applyPut st (putO st path V opts now)).meta = true := by
    rw [hgd, hgm]; exact e6
  have hw := getWalk_pre
    (fun st' p => getFuel fuel st' p opts now) opts now pp pp [] []
    (applyPut st (putO st path V opts now)).data []
    (applyPut st (putO st path V opts now)).meta
    (applyPut st (putO st path V opts now)) [] rfl hok
  rw [List.append_nil] at hw
  simp only [List.nil_append] at hw
  rw [hw]
  have hcur : gWalkD opts pp
      (applyPut st (putO st path V opts now)).data = V := by
    rw [hgd]; exact e7
  have hmch : resolveAcc (applyPut st (putO st path V opts now)).meta
      (gAccs opts now pp (applyPut st (putO st path V opts now)).data
        (applyPut st (putO st path V opts now)).meta) =
      mkMeta opts now V := by
    rw [hgd, hgm]; exact e8
  simp only [getWalk, getFinal, hcur, hmch]
  have hmkt : truthy (mkMeta opts now V) = true := rfl
  have hexp : jsLt (((mkMeta opts now V).getP "ttl").toOption.getD
      .undef) now = false := by
    rw [mkMeta_ttl]; exact jsLt_fresh httl
  have hfe : fetchIfExpired (applyPut st (putO st path V opts now)) opts
      now (getSubPath pp 0 pp.length) V (mkMeta opts now V) =
      (.ok V, applyPut st (putO st path V opts now), []) := by
    simp [fetchIfExpired, hcb, hmkt, hexp, htv]
  rw [hfe]
  rfl

/-- Witness for C1: put `{x: 1}` at "a.b" into the empty cache at
t = 1000 and get it back at the same instant. -/
theorem c1_roundtrip_amended_witness :
    (putO stEx (.str "a.b") (.obj [("x", .num 1)]) cfgEx 1000).err =
      none ∧
    getFuel 2 (applyPut stEx (putO stEx (.str "a.b")
        (.obj [("x", .num 1)]) cfgEx 1000)) (.str "a.b") cfgEx 1000 =
      some (.ok (.obj [("x", .num 1)]),
        applyPut stEx (putO stEx (.str "a.b") (.obj [("x", .num 1)])
          cfgEx 1000), []) :=
  c1_roundtrip_amended stEx (.str "a.b") (.obj [("x", .num 1)]) cfgEx
    1000 1 [⟨"a", none, none, false⟩, ⟨"b", none, none, false⟩]
    rfl rfl rfl (by decide) rfl rfl rfl (by rfl) (by rfl)

/-- On a container the array-fresh vivification idiom never throws and
produces the `vivCA`/`vivDA` pair. -/
theorem vivifyP_eqA {d : Value} (h : d.isObjOrArr = true) (k : String) :
    vivifyP d k (.arr [] []) = .ok (vivCA d k, vivDA d k) := by
  obtain ⟨c0, hc⟩ : ∃ c0, d.getP k = .ok c0 :=
    ⟨_, getP_ok_of_container h k⟩
  have hc0 : (d.getP k).toOption.getD .undef = c0 := by
    rw [hc]; rfl
  unfold vivifyP vivCA vivDA
  rw [hc0, hc]
  cases ht : truthy c0
  · simp [bind, Except.bind, ht, setP_ok_of_container h]
  · simp [bind, Except.bind, ht]

/-- Two-tree array-fresh vivification on containers. -/
theorem vivify2_eqA {d m : Value} (hd : d.isObjOrArr = true)
    (hm : m.isObjOrArr = true) (k : String) :
    vivify2 d m k (.arr [] []) =
      .ok (vivCA d k, vivCA m k, vivDA d k, vivDA m k) := by
  unfold vivify2
  rw [vivifyP_eqA hd, vivifyP_eqA hm]

/-- The array-vivified container is still a container. -/
theorem vivDA_container {d : Value} (h : d.isObjOrArr = true)
    (k : String) : (vivDA d k).isObjOrArr = true := by
  unfold vivDA
  cases truthy ((d.getP k).toOption.getD .undef)
  · exact forceSetP_container h k _
  · exact h

/-- A segment with a truthy id and no index selects the
identity-addressed branch. -/
theorem segKind_ident_of {seg : PathSeg} (hk : (seg.key != "") = true)
    (hi : seg.index = none) {idv : Value} (hid : seg.id = some idv)
    (ht : truthy idv = true) (fg : Bool) : segKind fg seg = .ident idv := by
  unfold segKind
  simp [hk, hi, hid, idTruthy, ht]

/-- Appending the `{[idAttr]: id}` stub to an array with no strict id
match puts the first match at the stub's position. -/
theorem findIdxFrom_append_stub {idAttr : String} {idv : Value}
    (hself : strictEq idv idv = true) :
    ∀ (es : List Value) (i : Nat),
      findIdxFrom strictEq idAttr idv i es = .ok none →
      findIdxFrom strictEq idAttr idv i (es ++ [.obj [(idAttr, idv)]]) =
        .ok (some (i + es.length)) := by
  intro es
  induction es with
  | nil =>
    intro i h
    simp [findIdxFrom, Value.getP, objGet, bind, Except.bind, hself]
  | cons e rest ih =>
    intro i h
    simp only [List.cons_append, findIdxFrom, bind, Except.bind] at h ⊢
    cases hg : e.getP idAttr with
    | error er => rw [hg] at h; cases h
    | ok p =>
      rw [hg] at h
      cases hc : strictEq p idv
      · simp only [hc, Bool.false_eq_true, if_false] at h ⊢
        have hres := ih (i + 1) h
        have hlen : i + 1 + rest.length = i + (e :: rest).length := by
          simp only [List.length_cons]; omega
        rw [hlen] at hres
        exact hres
      · simp only [hc, if_true] at h
        cases h

/-- C3 (corrected): a `put` whose single identity-addressed segment
carries an id conflicting with the value's own identity field throws an
ID-mismatch error synchronously and fires no put event, but the cache is
NOT left as it was: the strict-equality `findIndex` misses, so the
`{[idAttr]: id}` stub has already been pushed onto the (possibly freshly
vivified) array when the check throws — afterwards an element with the
path's id exists under the key, contradicting the claim's frame
condition (see the counterexample for the concrete mutation). -/
theorem c3_mismatch_amended (st : CacheState) (path V : Value)
    (opts : Config) (now : Int) (seg : PathSeg) (idv : Value)
    (hp : parsePath path = .ok [seg]) (hid : seg.id = some idv)
    (hidt : truthy idv = true) (hk1 : (seg.key != "") = true)
    (hk2 : seg.index = none) (hkn : (strToNat? seg.key).isNone = true)
    (hdo : st.data.isObjOrArr = true) (hmo : st.meta.isObjOrArr = true)
    (hto : typeofVal V = "object") (hfld : truthy V = true)
    (hft : truthy ((V.getP opts.idAttr).toOption.getD .undef) = true)
    (hne : looseEq ((V.getP opts.idAttr).toOption.getD .undef) idv =
      false)
    (hprim : strictEq idv idv = true)
    (hnomatch : (vivCA st.data seg.key).findIdxStrict opts.idAttr idv =
      .ok none) :
    (putO st path V opts now).err = some .idMismatch ∧
    (∃ n, (((putO st path V opts now).data.getP
        seg.key).toOption.getD .undef).findIdxStrict opts.idAttr idv =
      .ok (some n)) ∧
    (putO st path V opts now).fired = [] := by
  obtain ⟨es, ps, hva⟩ : ∃ es ps, vivCA st.data seg.key = .arr es ps := by
    cases hx : vivCA st.data seg.key with
    | arr es ps => exact ⟨es, ps, rfl⟩
    | undef => rw [hx] at hnomatch; cases hnomatch
    | null => rw [hx] at hnomatch; cases hnomatch
    | bool b => rw [hx] at hnomatch; cases hnomatch
    | num n => rw [hx] at hnomatch; cases hnomatch
    | str s => rw [hx] at hnomatch; cases hnomatch
    | obj fs => rw [hx] at hnomatch; cases hnomatch
  rw [hva] at hnomatch
  have hfind : findIdxFrom strictEq opts.idAttr idv 0 es = .ok none :=
    hnomatch
  have hput : putO st path V opts now =
      { err := some .idMismatch,
        data := forceSetP (vivDA st.data seg.key) seg.key
          (.arr (es ++ [.obj [(opts.idAttr, idv)]]) ps),
        meta := vivDA st.meta seg.key } := by
    simp only [putO, hp, putRec, segKind_ident_of hk1 hk2 hid hidt false,
      vivify2_eqA hdo hmo, hva, idLocate, Value.findIdxStrict, hfind,
      List.isEmpty_nil, if_true]
    simp only [putIdLeaf, hto, bne_self_eq_false, Bool.false_eq_true,
      if_false, hfld, hft, hne, Bool.not_false, Bool.and_true,
      Bool.true_and, if_true]
  rw [hput]
  refine ⟨rfl, ⟨es.length, ?_⟩, rfl⟩
  rw [getP_forceSetP_self (vivDA_container hdo _) hkn]
  simp only [Except.toOption, Option.getD_some, Value.findIdxStrict]
  have := findIdxFrom_append_stub hprim es 0 hfind
  simpa using this

/-- Witness for C3: `put("wrongId/99", {_id: 66})` into the empty
cache. -/
theorem c3_mismatch_amended_witness :
    (putO stEx (.str "wrongId/99") (.obj [("_id", .num 66)]) cfgEx
        1000).err = some .idMismatch ∧
    (∃ n, (((putO stEx (.str "wrongId/99") (.obj [("_id", .num 66)])
        cfgEx 1000).data.getP "wrongId").toOption.getD
          .undef).findIdxStrict "_id" (.num 99) = .ok (some n)) ∧
    (putO stEx (.str "wrongId/99") (.obj [("_id", .num 66)]) cfgEx
        1000).fired = [] :=
  c3_mismatch_amended stEx (.str "wrongId/99") (.obj [("_id", .num 66)])
    cfgEx 1000 ⟨"wrongId", some (.num 99), none, false⟩ (.num 99)
    (by rfl) rfl (by decide) (by decide) rfl (by rfl) rfl rfl rfl rfl
    (by decide) (by decide) (by decide) (by rfl)

/-- A `put` whose parsed path holds an append-marker segment before the
final position always returns an error and never reaches a leaf write:
either the walk throws earlier, or the append branch's
`!rest.isEmpty` check throws "append may only be last". -/
theorem putRec_midAppend (opts : Config) (now : Int) (ls : List Listener)
    (origPath : Value) (fullPP : List PathSeg) :
    ∀ (segs : List PathSeg) (V d m : Value), midAppend segs = true →
      ((putRec opts now ls origPath fullPP segs V d m).err.isSome =
        true ∧
       (putRec opts now ls origPath fullPP segs V d m).fired = []) := by
  intro segs
  induction segs with
  | nil => intro V d m h; simp [midAppend] at h
  | cons seg rest ih =>
    intro V d m h
    by_cases hre : rest = []
    · subst hre
      simp [midAppend, isAppendKind] at h
    · have hremp : rest.isEmpty = false := by
        cases rest with
        | nil => exact absurd rfl hre
        | cons s2 r2 => rfl
      simp only [putRec, hremp]
      cases hk : segKind false seg with
      | invalid => simp
      | plain =>
        have hrest : midAppend rest = true := by
          simp only [midAppend, hk] at h
          simpa [isAppendKind] using h
        cases hv : vivify2 d m seg.key (.obj []) with
        | error em => rcases em with ⟨e, d1, m1⟩; simp
        | ok q =>
          rcases q with ⟨c, mc, d1, m1⟩
          simpa using ih V c mc hrest
      | append =>
        cases hv : vivify2 d m seg.key (.arr [] []) with
        | error em => rcases em with ⟨e, d1, m1⟩; simp
        | ok q => rcases q with ⟨a, ma, d1, m1⟩; simp
      | indexed i =>
        have hrest : midAppend rest = true := by
          simp only [midAppend, hk] at h
          simpa [isAppendKind] using h
        cases hv : vivify2 d m seg.key (.arr [] []) with
        | error em => rcases em with ⟨e, d1, m1⟩; simp
        | ok q =>
          rcases q with ⟨a, ma, d1, m1⟩
          cases hvi : vivifyIdx a i (.obj []) with
          | error e => simp [hvi]
          | ok q2 =>
            rcases q2 with ⟨c, aPre⟩
            cases hvm : vivifyIdx ma i (.obj []) with
            | error e => simp [hvi, hvm]
            | ok q3 =>
              rcases q3 with ⟨mc, maPre⟩
              simpa [hvi, hvm] using ih V c mc hrest
      | ident idv =>
        have hrest : midAppend rest = true := by
          simp only [midAppend, hk] at h
          simpa [isAppendKind] using h
        cases hv : vivify2 d m seg.key (.arr [] []) with
        | error em => rcases em with ⟨e, d1, m1⟩; simp
        | ok q =>
          rcases q with ⟨a, ma, d1, m1⟩
          cases hl : idLocate a opts.idAttr idv with
          | error e => simp [hl]
          | ok q2 =>
            rcases q2 with ⟨fi, a1, pushed⟩
            cases hvm : vivifyIdx ma fi (.obj [(opts.idAttr, idv)]) with
            | error e => simp [hl, hvm]
            | ok q3 =>
              rcases q3 with ⟨mc, maPre⟩
              simpa [hl, hvm] using
                ih V ((a1.getIdx fi).toOption.getD .undef) mc hrest

/-- C6 (corrected): (1) a put with an append-marker segment in a
non-final position always throws and fires no put event; (2) a put
whose single append-marker segment finds an existing truthy NON-ARRAY
under the key throws "cannot append, not an array"; (3) but when
nothing (or a falsy value) exists under the key, the claim's "require
an existing array" is false: the `cacheElem[key] || (cacheElem[key] =
[])` vivification creates a fresh array and the append succeeds,
pushing the value and its metadata record (see the counterexample). -/
theorem c6_append_behavior :
    (∀ (opts : Config) (now : Int) (ls : List Listener)
       (orig : Value) (fullPP segs : List PathSeg) (V d m : Value),
       midAppend segs = true →
       (putRec opts now ls orig fullPP segs V d m).err.isSome = true ∧
       (putRec opts now ls orig fullPP segs V d m).fired = []) ∧
    (∀ (st : CacheState) (path V : Value) (opts : Config) (now : Int)
       (seg : PathSeg), parsePath path = .ok [seg] →
       segKind false seg = .append →
       st.data.isObjOrArr = true → st.meta.isObjOrArr = true →
       truthy ((st.data.getP seg.key).toOption.getD .undef) = true →
       ((st.data.getP seg.key).toOption.getD .undef).isArr = false →
       (putO st path V opts now).err = some .appendNotArray ∧
       (putO st path V opts now).fired = []) ∧
    (∀ (st : CacheState) (path V : Value) (opts : Config) (now : Int)
       (seg : PathSeg), parsePath path = .ok [seg] →
       segKind false seg = .append → st.listeners = [] →
       st.data.isObjOrArr = true → st.meta.isObjOrArr = true →
       (strToNat? seg.key).isNone = true →
       truthy ((st.data.getP seg.key).toOption.getD .undef) = false →
       truthy ((st.meta.getP seg.key).toOption.getD .undef) = false →
       (putO st path V opts now).err = none ∧
       (putO st path V opts now).data.getP seg.key =
         .ok (.arr [V] []) ∧
       (putO st path V opts now).meta.getP seg.key =
         .ok (.arr [mkMeta opts now V] []) ∧
       (putO st path V opts now).fired = [(path, V)]) := by
  refine ⟨fun opts now ls orig fullPP segs V d m h =>
    putRec_midAppend opts now ls orig fullPP segs V d m h, ?_, ?_⟩
  · intro st path V opts now seg hp hka hdo hmo htr hna
    have hvA : vivCA st.data seg.key =
        (st.data.getP seg.key).toOption.getD .undef := by
      simp [vivCA, htr]
    have hput : putO st path V opts now =
        { err := some .appendNotArray, data := vivDA st.data seg.key,
          meta := vivDA st.meta seg.key } := by
      simp only [putO, hp, putRec, hka, vivify2_eqA hdo hmo,
        List.isEmpty_nil, Bool.not_true, Bool.false_eq_true, if_false,
        putAppendLeaf, hvA, hna, Bool.not_false, if_true]
    rw [hput]
    exact ⟨rfl, rfl⟩
  · intro st path V opts now seg hp hka hls hdo hmo hkn hfd hfm
    have hvA : vivCA st.data seg.key = .arr [] [] := by
      simp [vivCA, hfd]
    have hvAm : vivCA st.meta seg.key = .arr [] [] := by
      simp [vivCA, hfm]
    have hput : putO st path V opts now =
        { err := none,
          data := forceSetP (vivDA st.data seg.key) seg.key
            (.arr [V] []),
          meta := forceSetP (vivDA st.meta seg.key) seg.key
            (.arr [mkMeta opts now V] []),
          fired := [(path, V)], notified := [] } := by
      simp only [putO, hp, hls, putRec, hka, vivify2_eqA hdo hmo,
        List.isEmpty_nil, Bool.not_true, Bool.false_eq_true, if_false,
        putAppendLeaf, hvA, hvAm, Value.isArr, Bool.not_true,
        Value.pushV, List.nil_append, Except.toOption, Option.getD_some,
        fireEvents]
    rw [hput]
    exact ⟨rfl, getP_forceSetP_self (vivDA_container hdo _) hkn _,
      getP_forceSetP_self (vivDA_container hmo _) hkn _, rfl⟩

/-- Witness for C6: a mid-path append on "a[].b" errs; appending to the
string stored under "k" in `stKV` errs; appending `5` at "list[]" in
the empty cache creates the array. -/
theorem c6_append_behavior_witness :
    ((putRec cfgEx 1000 [] (.str "a[].b")
        [⟨"a", none, none, true⟩, ⟨"b", none, none, false⟩]
        [⟨"a", none, none, true⟩, ⟨"b", none, none, false⟩]
        (.num 5) (.obj []) (.obj [])).err.isSome = true ∧
      (putRec cfgEx 1000 [] (.str "a[].b")
        [⟨"a", none, none, true⟩, ⟨"b", none, none, false⟩]
        [⟨"a", none, none, true⟩, ⟨"b", none, none, false⟩]
        (.num 5) (.obj []) (.obj [])).fired = []) ∧
    ((putO stKV (.str "k[]") (.num 5) cfgEx 2000).err =
        some .appendNotArray ∧
      (putO stKV (.str "k[]") (.num 5) cfgEx 2000).fired = []) ∧
    ((putO stEx (.str "list[]") (.num 5) cfgEx 1000).err = none ∧
      (putO stEx (.str "list[]") (.num 5) cfgEx 1000).data.getP "list" =
        .ok (.arr [.num 5] []) ∧
      (putO stEx (.str "list[]") (.num 5) cfgEx 1000).meta.getP "list" =
        .ok (.arr [mkMeta cfgEx 1000 (.num 5)] []) ∧
      (putO stEx (.str "list[]") (.num 5) cfgEx 1000).fired =
        [(.str "list[]", .num 5)]) :=
  ⟨c6_append_behavior.1 cfgEx 1000 [] (.str "a[].b")
      [⟨"a", none, none, true⟩, ⟨"b", none, none, false⟩]
      [⟨"a", none, none, true⟩, ⟨"b", none, none, false⟩]
      (.num 5) (.obj []) (.obj []) (by decide),
   c6_append_behavior.2.1 stKV (.str "k[]") (.num 5) cfgEx 2000
      ⟨"k", none, none, true⟩ (by rfl) (by decide) rfl rfl (by rfl)
      (by rfl),
   c6_append_behavior.2.2 stEx (.str "list[]") (.num 5) cfgEx 1000
      ⟨"list", none, none, true⟩ (by rfl) (by decide) rfl rfl rfl
      (by rfl) (by rfl) (by rfl)⟩

/-- When the listener path is no longer than the put path, the matching
loop never throws and computes the segment-wise prefix match. -/
theorem listenerMatchLoop_ok :
    ∀ (lp pp : List PathSeg), lp.length ≤ pp.length →
      listenerMatchLoop lp pp = .ok (lpathMatches lp pp) := by
  intro lp
  induction lp with
  | nil => intro pp h; rfl
  | cons l lr ih =>
    intro pp h
    cases pp with
    | nil => simp at h
    | cons p pr =>
      simp only [listenerMatchLoop, lpathMatches]
      have hsm : (l.key == p.key &&
          !(idTruthy l.id && !strictEqOptId l.id p.id) &&
          !(idxTruthy l.index && !(l.index == p.index))) =
          segMatch l p := rfl
      rw [hsm]
      cases hc : segMatch l p
      · simp
      · simp only [if_true, Bool.true_and]
        exact ih pr (by simpa using Nat.le_of_succ_le_succ h)

/-- When the listener path is strictly longer than the put path and its
first `pp.length` segments match, the loop walks off the end of the
parsed put path and throws the TypeError of
`parsedPath[i].key` on `undefined`. -/
theorem listenerMatchLoop_long :
    ∀ (lp pp : List PathSeg), pp.length < lp.length →
      lpathMatches (lp.take pp.length) pp = true →
      listenerMatchLoop lp pp = .error .typeError := by
  intro lp
  induction lp with
  | nil => intro pp h _; simp at h
  | cons l lr ih =>
    intro pp h hm
    cases pp with
    | nil => rfl
    | cons p pr =>
      simp only [List.length_cons, List.take_succ_cons,
        lpathMatches, Bool.and_eq_true] at hm
      simp only [listenerMatchLoop]
      have hsm : (l.key == p.key &&
          !(idTruthy l.id && !strictEqOptId l.id p.id) &&
          !(idxTruthy l.index && !(l.index == p.index))) =
          segMatch l p := rfl
      simp only [hsm, hm.1, if_true]
      exact ih pr (by simpa using Nat.lt_of_succ_lt_succ h) hm.2

/-- C8 (corrected): (1) for non-exact listeners whose registered paths
are no longer than the put's normalized path, `firePutEvent` notifies —
synchronously, in registration order, once each, with the caller's
original path and value — exactly the listeners whose registered path is
a segment-wise prefix of the put path; (2) but when the put's normalized
path is shorter than a matching non-exact listener's path, the put does
NOT simply skip the listener and succeed: the matching loop reads
`parsedPath[i]` past the end and the put call throws a TypeError (the
value having already been written — see the counterexample). -/
theorem c8_listener_behavior :
    (∀ (orig V : Value) (pp : List PathSeg) (ls : List Listener),
       (∀ l ∈ ls, l.exact = false ∧ l.path.length ≤ pp.length) →
       fireEvents orig V pp ls =
         ((ls.filter (fun l => lpathMatches l.path pp)).map
           (fun l => (l.listenerId, orig, V)), none)) ∧
    (∀ (st : CacheState) (path V : Value) (opts : Config) (now : Int)
       (seg : PathSeg) (l : Listener),
       parsePath path = .ok [seg] → (seg.key != "") = true →
       (seg.index == none) = true → (seg.id == none) = true →
       seg.appendArray = false → st.listeners = [l] →
       l.exact = false → 1 < l.path.length →
       lpathMatches (l.path.take 1) [seg] = true →
       st.data.isObjOrArr = true → st.meta.isObjOrArr = true →
       opts.merge = false →
       (putO st path V opts now).err = some .typeError) := by
  constructor
  · intro orig V pp ls
    induction ls with
    | nil => intro _; rfl
    | cons l rest ih =>
      intro h
      obtain ⟨hex, hlen⟩ := h l (List.mem_cons_self l rest)
      have hrest := fun l2 hl2 => h l2 (List.mem_cons_of_mem l hl2)
      have hlm : listenerMatch l pp = .ok (lpathMatches l.path pp) := by
        unfold listenerMatch
        rw [hex]
        simp only [beq_self_eq_true, Bool.true_or, if_true]
        exact listenerMatchLoop_ok l.path pp hlen
      cases hc : lpathMatches l.path pp
      · rw [hc] at hlm
        simp only [fireEvents, hlm, List.filter_cons, hc,
          Bool.false_eq_true, if_false]
        exact ih hrest
      · rw [hc] at hlm
        simp only [fireEvents, hlm, List.filter_cons, hc, if_true,
          List.map_cons]
        rw [ih hrest]
  · intro st path V opts now seg l hp hk1 hk2 hk3 hk4 hls hex hlen hpm
      hdo hmo hmg
    have hloop : listenerMatchLoop l.path [seg] = .error .typeError :=
      listenerMatchLoop_long l.path [seg] (by simpa using hlen)
        (by simpa using hpm)
    have hlm : listenerMatch l [seg] = .error .typeError := by
      unfold listenerMatch
      rw [hex]
      simp only [beq_self_eq_true, Bool.true_or, if_true]
      exact hloop
    simp only [putO, hp, hls, putRec, segKind_plain_of hk1 hk2 hk3 hk4,
      List.isEmpty_nil, if_true, putPlainLeaf, hmg, Bool.false_and,
      Bool.false_eq_true, if_false, setP_ok_of_container hdo,
      setP_ok_of_container hmo, fireEvents, hlm]

/-- Witness for C8: two non-exact listeners ("one" and "three") against
a put of "one.two" — only the first is notified, with the original path
and value; and a put of "one" against the listener on "one.two"
registered in `stSubFix` throws the TypeError. -/
theorem c8_listener_behavior_witness :
    fireEvents (.str "one.two") (.num 7)
      [⟨"one", none, none, false⟩, ⟨"two", none, none, false⟩]
      ([⟨0, [⟨"one", none, none, false⟩], false⟩,
        ⟨1, [⟨"three", none, none, false⟩], false⟩] : List Listener) =
      ((([⟨0, [⟨"one", none, none, false⟩], false⟩,
          ⟨1, [⟨"three", none, none, false⟩], false⟩] :
            List Listener).filter
          (fun l => lpathMatches l.path
            [⟨"one", none, none, false⟩, ⟨"two", none, none, false⟩])).map
        (fun l => (l.listenerId, .str "one.two", .num 7)), none) ∧
    (putO stSubFix (.str "one") (.num 1) cfgEx 3000).err =
      some .typeError :=
  ⟨c8_listener_behavior.1 (.str "one.two") (.num 7)
    [⟨"one", none, none, false⟩, ⟨"two", none, none, false⟩]
    ([⟨0, [⟨"one", none, none, false⟩], false⟩,
      ⟨1, [⟨"three", none, none, false⟩], false⟩] : List Listener)
    (by decide),
   c8_listener_behavior.2 stSubFix (.str "one") (.num 1) cfgEx 3000
    ⟨"one", none, none, false⟩
    ⟨0, [⟨"one", none, none, false⟩, ⟨"two", none, none, false⟩], false⟩
    (by rfl) (by decide) rfl rfl rfl (by rfl) rfl (by decide)
    (by decide) rfl rfl rfl⟩

/-- A key absent from every field name reads as `none`. -/
theorem objGet_none_of (fs : List (String × Value)) (k : String)
    (h : ∀ kv ∈ fs, (kv.1 == k) = false) : objGet fs k = none := by
  induction fs with
  | nil => rfl
  | cons kv rest ih =>
    obtain ⟨a, w⟩ := kv
    have hk := h (a, w) (List.mem_cons_self _ _)
    simp only [objGet, hk, Bool.false_eq_true, if_false]
    exact ih (fun kv2 h2 => h kv2 (List.mem_cons_of_mem _ h2))

/-- `populate` on a primitive is the identity (the final catch-all arm
of the source's type dispatch). -/
theorem populateFuel_prim (fuel : Nat) (st : CacheState) (v : Value)
    (refProp : String) (opts : Config) (now : Int)
    (h : v.isObjOrArr = false) :
    populateFuel (fuel + 1) st v refProp opts now =
      some (.ok v, st, []) := by
  cases v with
  | obj fs => simp [Value.isObjOrArr] at h
  | arr es ps => simp [Value.isObjOrArr] at h
  | null => rfl
  | undef => rfl
  | bool b => rfl
  | num n => rfl
  | str s => rfl

/-- The `populate` field loop is the identity on fields that are
primitive and not named after the populated reference property. -/
theorem populateObj_prim (getI popI : CacheState → Value → Option GetOut)
    (refAttr refProp : String)
    (hpopI : ∀ (st2 : CacheState) (v : Value), v.isObjOrArr = false →
      popI st2 v = some (.ok v, st2, [])) :
    ∀ (fs : List (String × Value)) (st : CacheState)
      (fetches : List Value),
      (∀ kv ∈ fs, (kv.1 == refProp) = false ∧
        kv.2.isObjOrArr = false) →
      populateObj getI popI refAttr refProp fs st fetches =
        some (.ok fs, st, fetches) := by
  intro fs
  induction fs with
  | nil => intro st fetches _; rfl
  | cons kv rest ih =>
    intro st fetches h
    obtain ⟨k, w⟩ := kv
    obtain ⟨hk, hw⟩ := h (k, w) (List.mem_cons_self _ _)
    simp only [populateObj, hk, Bool.false_eq_true, if_false,
      hpopI st w hw, List.append_nil,
      ih st fetches (fun kv2 h2 => h kv2 (List.mem_cons_of_mem _ h2))]

/-- `populate` is the identity on an object all of whose fields are
primitive and named after neither the reference property nor the marker
attribute (no further backend calls, no state change). -/
theorem populateFuel_inertObj (fuel : Nat) (st : CacheState)
    (tfs : List (String × Value)) (refProp : String) (opts : Config)
    (now : Int)
    (h : ∀ kv ∈ tfs, (kv.1 == refProp) = false ∧
      kv.2.isObjOrArr = false) :
    populateFuel (fuel + 2) st (.obj tfs) refProp opts now =
      some (.ok (.obj tfs), st, []) := by
  have hloop := populateObj_prim
    (fun st' p => getFuel (fuel + 1) st' p opts now)
    (fun st' e => populateFuel (fuel + 1) st' e refProp opts now)
    opts.referencedPathAttr refProp
    (fun st2 v hv => populateFuel_prim fuel st2 v refProp opts now hv)
    tfs st [] h
  show populateFuel (fuel + 1 + 1) st (.obj tfs) refProp opts now = _
  rw [populateFuel]
  simp only [hloop]

/-- C2 (corrected): `populate(elem, refProp)` on a structure fetched by
direct reference from the cache (at accessor chain `loc`) resolves the
`refProp` reference marker through `get` and returns the populated
structure WITHOUT further backend calls — but contrary to the claim, the
in-place assignment `elem[refProp] = await this.get(...)` mutates the
cache's stored copy through that live reference (the `setAtAcc`
write-back below; the counterexample shows the stored marker is gone
afterwards).  A second `populate` of the populated structure is the
identity and issues no additional backend calls. -/
theorem c2_populate_behavior (fuel : Nat) (st : CacheState)
    (loc : List Acc) (opts : Config) (now : Int) (a refProp : String)
    (v1 w refv : Value) (tfs : List (String × Value))
    (hne : (a == refProp) = false) (hv1 : v1.isObjOrArr = false)
    (hloc : resolveAcc st.data loc = .obj [(a, v1), (refProp, w)])
    (hmark : w.getP opts.referencedPathAttr = .ok refv)
    (htr : truthy refv = true)
    (hget : getFuel (fuel + 1) st refv opts now =
      some (.ok (.obj tfs), st, []))
    (htf : ∀ kv ∈ tfs, (kv.1 == refProp) = false ∧
      (kv.1 == opts.referencedPathAttr) = false ∧
      kv.2.isObjOrArr = false) :
    populateAt (fuel + 2) st loc refProp opts now =
      some (.ok (.obj [(a, v1), (refProp, .obj tfs)]),
        { st with data := (setAtAcc st.data loc
            (.obj [(a, v1), (refProp, .obj tfs)])) }, []) ∧
    (∀ st2 : CacheState,
      populateFuel (fuel + 3) st2
        (.obj [(a, v1), (refProp, .obj tfs)]) refProp opts now =
      some (.ok (.obj [(a, v1), (refProp, .obj tfs)]), st2, [])) := by
  constructor
  · have hpf : populateFuel (fuel + 2) st
        (.obj [(a, v1), (refProp, w)]) refProp opts now =
        some (.ok (.obj [(a, v1), (refProp, .obj tfs)]), st, []) := by
      show populateFuel (fuel + 1 + 1) st _ refProp opts now = _
      rw [populateFuel]
      simp only [populateObj, hne, Bool.false_eq_true, if_false,
        populateFuel_prim fuel st v1 refProp opts now hv1,
        List.append_nil, beq_self_eq_true, if_true, hmark, Except.map,
        htr, hget, List.nil_append]
    simp only [populateAt, hloc, hpf]
  · intro st2
    have hprim2 : populateFuel (fuel + 2) st2 v1 refProp opts now =
        some (.ok v1, st2, []) := by
      show populateFuel (fuel + 1 + 1) st2 v1 refProp opts now = _
      exact populateFuel_prim (fuel + 1) st2 v1 refProp opts now hv1
    have hnoA : objGet tfs opts.referencedPathAttr = none :=
      objGet_none_of tfs opts.referencedPathAttr
        (fun kv h2 => (htf kv h2).2.1)
    have hinert := populateFuel_inertObj fuel st2 tfs refProp opts now
      (fun kv h2 => ⟨(htf kv h2).1, (htf kv h2).2.2⟩)
    show populateFuel (fuel + 2 + 1) st2 _ refProp opts now = _
    rw [populateFuel]
    simp only [populateObj, hne, Bool.false_eq_true, if_false, hprim2,
      List.append_nil, beq_self_eq_true, if_true, Value.getP, hnoA,
      Option.getD_none, Except.map, truthy, hinert]

/-- Witness for C2 at `stPopFix`: populating the `createdBy` marker of
the stored comment through a live reference at t = 2500 replaces the
marker by the fresh user and writes it back into the cache; populating
the result again changes nothing and fetches nothing. -/
theorem c2_populate_behavior_witness :
    populateAt 3 stPopFix [.prop "comment"] "createdBy" cfgEx 2500 =
      some (.ok (.obj [("text", .str "t"), ("createdBy", userEx)]),
        { stPopFix with data := (setAtAcc stPopFix.data [.prop "comment"]
            (.obj [("text", .str "t"), ("createdBy", userEx)])) }, []) ∧
    populateFuel 4 stEx (.obj [("text", .str "t"), ("createdBy", userEx)])
        "createdBy" cfgEx 2500 =
      some (.ok (.obj [("text", .str "t"), ("createdBy", userEx)]),
        stEx, []) :=
  ⟨(c2_populate_behavior 1 stPopFix [.prop "comment"] cfgEx 2500 "text"
      "createdBy" (.str "t") markerEx (.str "users/u1")
      [("_id", .str "u1"), ("email", .str "e@d")] (by decide) rfl
      (by rfl) (by rfl) (by decide) (by rfl) (by decide)).1,
   (c2_populate_behavior 1 stPopFix [.prop "comment"] cfgEx 2500 "text"
      "createdBy" (.str "t") markerEx (.str "users/u1")
      [("_id", .str "u1"), ("email", .str "e@d")] (by decide) rfl
      (by rfl) (by rfl) (by decide) (by rfl) (by decide)).2 stEx⟩

/-- C5 (confirmed): when a default-mode `get` on a descendant path finds
an intermediate plain-key step whose stepped-into value is present
(truthy, no marker) but whose metadata guard passes with a TTL in the
past, the walk immediately performs exactly one backend call — with the
path scoped to the sub-path up to and including that ancestor
(`getSubPath parsedPath 0 (i+1)`, here `sub`), not the full descendant
path — `put`s the fetched result back under the INSTANCE config
(`st.cfg`, refreshing the TTL; `st2` is the put-back state), and
continues the walk inside the refreshed value: when the remainder is
present and fresh there, the promise resolves to the walked-to value of
the freshly fetched structure and the fetch list is exactly `[sub]`. -/
theorem c5_ancestor_expiry_cascade (fuel : Nat) (st : CacheState)
    (path : Value) (opts : Config) (now : Int)
    (init rest : List PathSeg) (segE : PathSeg) (f : Value → Value)
    (c sub : Value) (mchain2 : List Acc) (st2 : CacheState)
    (hf : opts.fetchFunc = some f) (hcb : opts.callBackend = 0)
    (hp : parsePath path = .ok (init ++ segE :: rest))
    (hok : getPathOk opts now init st.data st.meta = true)
    (hkE : segKind true segE = .plain)
    (hg : (gWalkD opts init st.data).getP segE.key = .ok c)
    (htr : truthy c = true) (hnm : hasMarker opts c = false)
    (hguard : (mCurP (resolveAcc st.meta
      (gAccs opts now init st.data st.meta)) segE.key now).guard = true)
    (hexp : (mCurP (resolveAcc st.meta
      (gAccs opts now init st.data st.meta)) segE.key now).expired =
      true)
    (hsub : getSubPath (init ++ segE :: rest) 0 (init.length + 1) = sub)
    (hpb : (putO st sub (f sub) st.cfg now).err = none)
    (hst2 : applyPut st (putO st sub (f sub) st.cfg now) = st2)
    (hmc2 : gAccs opts now init st.data st.meta ++ [Acc.prop segE.key] =
      mchain2)
    (hok2 : getPathOk opts now rest (f sub)
      (resolveAcc st2.meta mchain2) = true)
    (hfin1 : truthy (gWalkD opts rest (f sub)) = true)
    (hfin2 : (truthy (resolveAcc st2.meta (mchain2 ++
        gAccs opts now rest (f sub) (resolveAcc st2.meta mchain2))) &&
      jsLt (((resolveAcc st2.meta (mchain2 ++
        gAccs opts now rest (f sub)
          (resolveAcc st2.meta mchain2))).getP "ttl").toOption.getD
        .undef) now) = false) :
    getFuel (fuel + 1) st path opts now =
      some (.ok (gWalkD opts rest (f sub)), st2, [sub]) := by
  have hnN : opts.fetchFunc.isNone = false := by rw [hf]; rfl
  simp only [getFuel, hnN, Bool.false_eq_true, if_false, hp]
  rw [getWalk_pre (fun st' p => getFuel fuel st' p opts now) opts now
    (init ++ segE :: rest) init (segE :: rest) [] st.data [] st.meta st
    [] rfl hok]
  simp only [List.nil_append]
  have hfe : fetchIfExpired st opts now sub .undef .undef =
      (.ok (f sub), st2, [sub]) := by
    simp only [fetchIfExpired, hcb, hf]
    cases he : (putO st sub (f sub) st.cfg now).err with
    | some e => rw [he] at hpb; cases hpb
    | none => simp [truthy, hst2]
  simp only [getWalk, hkE, hg, htr, Bool.not_true, Bool.false_eq_true,
    if_false, popResolve_noMarker hnm, metaStepP_eq, hguard, hexp,
    if_true, hsub, hfe, List.nil_append, hmc2]
  have hw := getWalk_pre (fun st' p => getFuel fuel st' p opts now) opts
    now (init ++ segE :: rest) rest [] (init ++ [segE]) (f sub) mchain2
    (resolveAcc st2.meta mchain2) st2 [sub] rfl hok2
  rw [List.append_nil] at hw
  rw [hw]
  simp only [getWalk, getFinal]
  have hfe2 : fetchIfExpired st2 opts now
      (getSubPath (init ++ segE :: rest) 0
        (init ++ segE :: rest).length)
      (gWalkD opts rest (f sub))
      (resolveAcc st2.meta (mchain2 ++
        gAccs opts now rest (f sub) (resolveAcc st2.meta mchain2))) =
      (.ok (gWalkD opts rest (f sub)), st2, []) := by
    simp only [fetchIfExpired, hcb, hfin2, hfin1]
    rfl
  rw [hfe2]
  rfl

/-- Witness for C5: `get("a.b")` at t = 99999 on the cache whose "a"
expired at t = 61000 — one fetch of the sub-path ["a"], put back, and
resolution to "fresh" from the refetched structure. -/
theorem c5_ancestor_expiry_cascade_witness :
    getFuel 2 stC5 (.str "a.b") cfgC5 99999 =
      some (.ok (gWalkD cfgC5 [⟨"b", none, none, false⟩]
        (fetchC5 (getSubPath
          ([] ++ ⟨"a", none, none, false⟩ :: [⟨"b", none, none, false⟩])
          0 1))),
        applyPut stC5 (putO stC5
          (getSubPath
            ([] ++ ⟨"a", none, none, false⟩ ::
              [⟨"b", none, none, false⟩]) 0 1)
          (fetchC5 (getSubPath
            ([] ++ ⟨"a", none, none, false⟩ ::
              [⟨"b", none, none, false⟩]) 0 1)) stC5.cfg 99999),
        [getSubPath
          ([] ++ ⟨"a", none, none, false⟩ :: [⟨"b", none, none, false⟩])
          0 1]) :=
  c5_ancestor_expiry_cascade 1 stC5 (.str "a.b") cfgC5 99999
    [] [⟨"b", none, none, false⟩] ⟨"a", none, none, false⟩ fetchC5
    (.obj [("b", .str "x")])
    (getSubPath
      ([] ++ ⟨"a", none, none, false⟩ :: [⟨"b", none, none, false⟩])
      0 1)
    (gAccs cfgC5 99999 [] stC5.data stC5.meta ++ [Acc.prop "a"])
    (applyPut stC5 (putO stC5
      (getSubPath
        ([] ++ ⟨"a", none, none, false⟩ :: [⟨"b", none, none, false⟩])
        0 1)
      (fetchC5 (getSubPath
        ([] ++ ⟨"a", none, none, false⟩ :: [⟨"b", none, none, false⟩])
        0 1)) stC5.cfg 99999))
    rfl rfl (by rfl) (by rfl) (by decide) (by rfl) (by rfl) (by rfl)
    (by decide) (by decide) (by rfl) (by rfl) (by rfl) (by rfl)
    (by rfl) (by rfl) (by rfl)

end PopCache
